import Mathlib

set_option maxRecDepth 8000

/- Shallow embedding of the Align repository tracker
   (src/app.py, src/ignore_patterns.py, src/markdown_generator.py, src/file_utils.py).

   Conventions of the embedding:
   * machine bytes are `Nat` values < 256, file contents are byte lists (`Bytes`);
   * `hashlib.sha256` is modelled by a full SHA-256 implementation over byte lists,
     and `.hexdigest()` by lowercase hex encoding of the 32 digest bytes;
   * times (`time.time()`) are integers;
   * the compiled `pathspec.PathSpec` object built by `load_gitignore` is third-party
     library code; it is modelled as a parameter `pm : List String → String → Bool`
     mapping the parsed pattern list and a candidate path to the match result
     (`PathSpec.from_lines(GitWildMatchPattern, patterns).match_file(path)`).
     Closed statements instantiate it with `fun _ _ => false`, the behaviour of a
     PathSpec compiled from an empty pattern list. -/

abbrev Bytes := List Nat

/-- UTF-8 encoding of one character (models Python `str.encode()` per code point). -/
def utf8Char (c : Char) : Bytes :=
  let n := c.toNat
  if n < 128 then [n]
  else if n < 2048 then [192 + n / 64, 128 + n % 64]
  else if n < 65536 then [224 + n / 4096, 128 + n / 64 % 64, 128 + n % 64]
  else [240 + n / 262144, 128 + n / 4096 % 64, 128 + n / 64 % 64, 128 + n % 64]

/-- UTF-8 encoding of a string (models Python `str.encode()`). -/
def strBytes (s : String) : Bytes := (s.data.map utf8Char).flatten

/-- ASCII decoding of file bytes (models `bytes.decode('utf-8', errors='replace')`;
    exact on ASCII content, non-ASCII bytes become the replacement character). -/
def decodeAscii (b : Bytes) : String :=
  String.mk (b.map fun n => if n < 128 then Char.ofNat n else '�')

/-- Python `str.startswith` (= Lean's `String.startsWith`), computed structurally
    on the character lists so that the kernel can evaluate it. -/
def strStartsWith (s pre : String) : Bool := pre.data.isPrefixOf s.data

/-- Python `str.endswith`, computed structurally on the character lists. -/
def strEndsWith (s sfx : String) : Bool := sfx.data.isSuffixOf s.data

/-- Python `s[1:]`. -/
def strDrop1 (s : String) : String := String.mk (s.data.drop 1)

/-- Python `s[:-1]`. -/
def strDropLast (s : String) : String := String.mk s.data.dropLast

/-- Python `str.strip()`. -/
def strTrim (s : String) : String :=
  String.mk ((s.data.dropWhile Char.isWhitespace).reverse.dropWhile Char.isWhitespace).reverse

/-- Split a list on a separator element (Python `str.split(sep)` semantics:
    `[] ↦ [[]]`, separators delimit possibly-empty chunks). -/
def splitSep {α : Type} [DecidableEq α] (sep : α) : List α → List (List α)
  | [] => [[]]
  | c :: rest =>
      if c = sep then [] :: splitSep sep rest
      else
        match splitSep sep rest with
        | [] => [[c]]
        | l :: ls => (c :: l) :: ls

/-- The lines of a rendered document (split on LF). -/
def linesOf (s : String) : List String := (splitSep '\n' s.data).map String.mk

/-- Whether `needle` occurs as a contiguous sublist (Python `needle in s`). -/
def listContainsSub {α : Type} [DecidableEq α] (needle : List α) : List α → Bool
  | [] => needle.isEmpty
  | a :: rest => needle.isPrefixOf (a :: rest) || listContainsSub needle rest

/-- Python string comparison `a <= b`: lexicographic by code point, a proper
    prefix preceding its extensions (structurally computable). -/
def charListLe : List Char → List Char → Bool
  | [], _ => true
  | _ :: _, [] => false
  | a :: as, b :: bs => if a = b then charListLe as bs else decide (a < b)

def strLeB (a b : String) : Bool := charListLe a.data b.data

theorem charListLe_total : ∀ a b : List Char, charListLe a b = true ∨ charListLe b a = true
  | [], _ => .inl rfl
  | _ :: _, [] => .inr rfl
  | a :: as, b :: bs => by
    by_cases hab : a = b
    · subst hab
      simpa [charListLe] using charListLe_total as bs
    · rcases lt_trichotomy a b with h | h | h
      · exact .inl (by simp [charListLe, hab, h])
      · exact absurd h hab
      · exact .inr (by simp [charListLe, Ne.symm hab, h])

theorem charListLe_trans :
    ∀ a b c : List Char, charListLe a b = true → charListLe b c = true → charListLe a c = true
  | [], _, _, _, _ => rfl
  | _ :: _, [], _, h, _ => by simp [charListLe] at h
  | _ :: _, _ :: _, [], _, h => by simp [charListLe] at h
  | a :: as, b :: bs, c :: cs, h1, h2 => by
    by_cases hab : a = b <;> by_cases hbc : b = c
    · subst hab; subst hbc
      simp only [charListLe, if_pos rfl] at h1 h2 ⊢
      exact charListLe_trans as bs cs h1 h2
    · subst hab
      simpa [charListLe, hbc] using h2
    · subst hbc
      simpa [charListLe, hab] using h1
    · simp only [charListLe, if_neg hab] at h1
      simp only [charListLe, if_neg hbc] at h2
      have hac : a < c := lt_trans (of_decide_eq_true h1) (of_decide_eq_true h2)
      simp [charListLe, ne_of_lt hac, hac]

theorem charListLe_antisymm :
    ∀ a b : List Char, charListLe a b = true → charListLe b a = true → a = b
  | [], [], _, _ => rfl
  | [], _ :: _, _, h => by simp [charListLe] at h
  | _ :: _, [], h, _ => by simp [charListLe] at h
  | a :: as, b :: bs, h1, h2 => by
    by_cases hab : a = b
    · subst hab
      simp only [charListLe, if_pos rfl] at h1 h2
      exact congrArg (a :: ·) (charListLe_antisymm as bs h1 h2)
    · simp only [charListLe, if_neg hab] at h1
      simp only [charListLe, if_neg (Ne.symm hab)] at h2
      exact absurd (of_decide_eq_true h2) (lt_asymm (of_decide_eq_true h1))

theorem strLeB_total (a b : String) : strLeB a b = true ∨ strLeB b a = true :=
  charListLe_total a.data b.data

theorem strLeB_trans {a b c : String} (h1 : strLeB a b = true) (h2 : strLeB b c = true) :
    strLeB a c = true :=
  charListLe_trans a.data b.data c.data h1 h2

theorem strLeB_antisymm {a b : String} (h1 : strLeB a b = true) (h2 : strLeB b a = true) :
    a = b := by
  cases a; cases b
  exact congrArg String.mk (charListLe_antisymm _ _ h1 h2)

/- ### SHA-256 (model of `hashlib.sha256`) -/

def w32 (x : Nat) : Nat := x % 4294967296

def rotr32 (n x : Nat) : Nat := w32 ((x >>> n) ||| (x <<< (32 - n)))

def shaCh (x y z : Nat) : Nat := (x &&& y) ^^^ ((x ^^^ 4294967295) &&& z)

def shaMaj (x y z : Nat) : Nat := (x &&& y) ^^^ (x &&& z) ^^^ (y &&& z)

def shaS0 (x : Nat) : Nat := rotr32 7 x ^^^ rotr32 18 x ^^^ (x >>> 3)

def shaS1 (x : Nat) : Nat := rotr32 17 x ^^^ rotr32 19 x ^^^ (x >>> 10)

def shaB0 (x : Nat) : Nat := rotr32 2 x ^^^ rotr32 13 x ^^^ rotr32 22 x

def shaB1 (x : Nat) : Nat := rotr32 6 x ^^^ rotr32 11 x ^^^ rotr32 25 x

def shaK : List Nat :=
  [1116352408, 1899447441, 3049323471, 3921009573, 961987163, 1508970993,
   2453635748, 2870763221, 3624381080, 310598401, 607225278, 1426881987,
   1925078388, 2162078206, 2614888103, 3248222580, 3835390401, 4022224774,
   264347078, 604807628, 770255983, 1249150122, 1555081692, 1996064986,
   2554220882, 2821834349, 2952996808, 3210313671, 3336571891, 3584528711,
   113926993, 338241895, 666307205, 773529912, 1294757372, 1396182291,
   1695183700, 1986661051, 2177026350, 2456956037, 2730485921, 2820302411,
   3259730800, 3345764771, 3516065817, 3600352804, 4094571909, 275423344,
   430227734, 506948616, 659060556, 883997877, 958139571, 1322822218,
   1537002063, 1747873779, 1955562222, 2024104815, 2227730452, 2361852424,
   2428436474, 2756734187, 3204031479, 3329325298]

structure Sha8 where
  a : Nat
  b : Nat
  c : Nat
  d : Nat
  e : Nat
  f : Nat
  g : Nat
  h : Nat
deriving Repr, DecidableEq

def shaInit : Sha8 :=
  ⟨1779033703, 3144134277, 1013904242, 2773480762, 1359893119, 2600822924, 528734635, 1541459225⟩

def shaRound (s : Sha8) (kw : Nat × Nat) : Sha8 :=
  let t1 := w32 (s.h + shaB1 s.e + shaCh s.e s.f s.g + kw.1 + kw.2)
  let t2 := w32 (shaB0 s.a + shaMaj s.a s.b s.c)
  ⟨w32 (t1 + t2), s.a, s.b, s.c, w32 (s.d + t1), s.e, s.f, s.g⟩

/-- Message-schedule extension; `wrev` holds the schedule so far, most recent word first. -/
def shaExtend : Nat → List Nat → List Nat
  | 0, wrev => wrev
  | k + 1, wrev =>
      shaExtend k
        (w32 (wrev.getD 15 0 + shaS0 (wrev.getD 14 0) + wrev.getD 6 0 + shaS1 (wrev.getD 1 0)) :: wrev)

def shaCompress (s : Sha8) (block : List Nat) : Sha8 :=
  let ws := (shaExtend 48 block.reverse).reverse
  let r := (shaK.zip ws).foldl shaRound s
  ⟨w32 (s.a + r.a), w32 (s.b + r.b), w32 (s.c + r.c), w32 (s.d + r.d),
   w32 (s.e + r.e), w32 (s.f + r.f), w32 (s.g + r.g), w32 (s.h + r.h)⟩

/-- Big-endian 32-bit words from bytes (input length a multiple of 4). -/
def wordsBE : Bytes → List Nat
  | b0 :: b1 :: b2 :: b3 :: rest => (b0 * 16777216 + b1 * 65536 + b2 * 256 + b3) :: wordsBE rest
  | _ => []

def lenBytes8 (n : Nat) : Bytes :=
  [n / 2 ^ 56 % 256, n / 2 ^ 48 % 256, n / 2 ^ 40 % 256, n / 2 ^ 32 % 256,
   n / 2 ^ 24 % 256, n / 2 ^ 16 % 256, n / 2 ^ 8 % 256, n % 256]

def shaPad (msg : Bytes) : Bytes :=
  msg ++ 128 :: List.replicate ((64 - (msg.length + 9) % 64) % 64) 0 ++ lenBytes8 (msg.length * 8)

def chunksAux : Nat → Bytes → List Bytes
  | 0, _ => []
  | _, [] => []
  | fuel + 1, b => b.take 64 :: chunksAux fuel (b.drop 64)

/-- 64-byte blocks of a padded message (fuel-based so the kernel can reduce it). -/
def chunksOf64 (b : Bytes) : List Bytes := chunksAux b.length b

def wbytes (w : Nat) : Bytes := [w / 16777216 % 256, w / 65536 % 256, w / 256 % 256, w % 256]

def sha256Words (msg : Bytes) : Sha8 :=
  ((chunksOf64 (shaPad msg)).map wordsBE).foldl shaCompress shaInit

def sha256Bytes (msg : Bytes) : Bytes :=
  wbytes (sha256Words msg).a ++ wbytes (sha256Words msg).b ++
  wbytes (sha256Words msg).c ++ wbytes (sha256Words msg).d ++
  wbytes (sha256Words msg).e ++ wbytes (sha256Words msg).f ++
  wbytes (sha256Words msg).g ++ wbytes (sha256Words msg).h

/-- Model of `hashlib.sha256(...).hexdigest()`: lowercase hex encoding of the digest. -/
def sha256Hex (msg : Bytes) : String :=
  String.mk (((sha256Bytes msg).map fun b => [Nat.digitChar (b / 16), Nat.digitChar (b % 16)]).flatten)

/- ### src/ignore_patterns.py -/

/-- `DEFAULT_IGNORES` from src/ignore_patterns.py (a Python set; iteration order is
    irrelevant because `should_ignore` only asks whether some member matches). -/
def DEFAULT_IGNORES : List String :=
  ["__pycache__", "__init__.py", ".pytest_cache", ".coverage", ".venv", "venv", "env", ".env",
   "*.pyc", "*.pyo", "*.pyd",
   "node_modules", "package-lock.json", "yarn.lock", ".npm",
   ".idea", ".vscode", ".vs", "*.swp", ".DS_Store", "Thumbs.db",
   "build", "dist", "*.egg-info",
   ".git"]

/-- `should_ignore(entry_name, rel_path, gitignore_spec)` from src/ignore_patterns.py.
    `spec` is the compiled gitignore matcher (`gitignore_spec.match_file`). -/
def should_ignore (entry_name rel_path : String) (spec : String → Bool) : Bool :=
  DEFAULT_IGNORES.any (fun pattern =>
    if strStartsWith pattern "*" then strEndsWith entry_name (strDrop1 pattern)
    else entry_name == pattern)
  || spec rel_path || spec (rel_path ++ "/")

/- ### Filesystem model -/

/-- A directory tree entry: a regular file (with content bytes and a readability
    flag — `readable = false` models a file whose `open`/`read` raises) or a
    directory with child entries.  A repository is the list of entries of its root. -/
inductive FSEntry where
  | file (name : String) (data : Bytes) (readable : Bool)
  | dir (name : String) (children : List FSEntry)
deriving Repr

abbrev FSTree := List FSEntry

mutual

def fsBeq : FSEntry → FSEntry → Bool
  | .file n d r, .file n' d' r' => n == n' && d == d' && r == r'
  | .dir n cs, .dir n' cs' => n == n' && fsBeqList cs cs'
  | _, _ => false

def fsBeqList : List FSEntry → List FSEntry → Bool
  | [], [] => true
  | a :: as, b :: bs => fsBeq a b && fsBeqList as bs
  | _, _ => false

end

mutual

theorem fsBeq_iff : ∀ a b : FSEntry, fsBeq a b = true ↔ a = b
  | .file n d r, .file n' d' r' => by simp [fsBeq, and_assoc]
  | .file _ _ _, .dir _ _ => by simp [fsBeq]
  | .dir _ _, .file _ _ _ => by simp [fsBeq]
  | .dir n cs, .dir n' cs' => by simp [fsBeq, fsBeqList_iff cs cs']

theorem fsBeqList_iff : ∀ a b : List FSEntry, fsBeqList a b = true ↔ a = b
  | [], [] => by simp [fsBeqList]
  | [], _ :: _ => by simp [fsBeqList]
  | _ :: _, [] => by simp [fsBeqList]
  | a :: as, b :: bs => by simp [fsBeqList, fsBeq_iff a b, fsBeqList_iff as bs]

end

instance : DecidableEq FSEntry := fun a b =>
  decidable_of_iff (fsBeq a b = true) (fsBeq_iff a b)

def FSEntry.name : FSEntry → String
  | .file n _ _ => n
  | .dir n _ => n

def FSEntry.isDirE : FSEntry → Bool
  | .file _ _ _ => false
  | .dir _ _ => true

/-- First root entry with the given name (directory listings of real filesystems
    have distinct names, so first-match equals unique-match). -/
def findRoot (t : FSTree) (nm : String) : Option FSEntry :=
  t.find? (fun e => e.name == nm)

structure WalkFile where
  relParts : List String
  name : String
  data : Bytes
  readable : Bool
deriving Repr, DecidableEq

mutual

/-- The regular files below one entry, in pre-order. -/
def rglobEntry (pre : List String) : FSEntry → List WalkFile
  | .file n d r => [⟨pre ++ [n], n, d, r⟩]
  | .dir n cs => rglobFiles (pre ++ [n]) cs

/-- The regular files yielded by `Path(directory).rglob('*')` (src/app.py line 145),
    in pre-order over the stored child lists; `rglob` also yields directories, which
    the `path.is_file()` guard drops, so only files are produced here.  `pre` is the
    relative path of the tree being walked. -/
def rglobFiles (pre : List String) : FSTree → List WalkFile
  | [] => []
  | e :: rest => rglobEntry pre e ++ rglobFiles pre rest

end

/-- `str(path.relative_to(directory))` with POSIX separators. -/
def relStr (parts : List String) : String := String.intercalate "/" parts

/-- Universal-newline translation performed by Python's text-mode reads:
    CRLF and lone CR become LF. -/
def normNewlines : Bytes → Bytes
  | [] => []
  | [c] => [if c = 13 then 10 else c]
  | c1 :: c2 :: rest =>
      if c1 = 13 then
        if c2 = 10 then 10 :: normNewlines rest else 10 :: normNewlines (c2 :: rest)
      else c1 :: normNewlines (c2 :: rest)

/-- Pattern list built by `load_gitignore` (src/app.py lines 44-65): non-blank,
    non-comment lines of the root `.gitignore`, trailing slash stripped, each
    pattern also registered in a `**/`-prefixed variant unless already so anchored.
    A missing, unreadable, or directory `.gitignore` yields the empty list (the
    read error is caught and a PathSpec over no patterns is built). -/
def parse_gitignore_line (raw : String) : List String :=
  let line := strTrim raw
  if line = "" || strStartsWith line "#" then []
  else
    let line1 := if strEndsWith line "/" then strDropLast line else line
    if strStartsWith line1 "**/" then [line1] else [line1, "**/" ++ line1]

def load_gitignore_patterns (t : FSTree) : List String :=
  match findRoot t ".gitignore" with
  | some (.file _ data true) =>
      ((splitSep 10 (normNewlines data)).map decodeAscii).flatMap parse_gitignore_line
  | _ => []

/- ### src/file_utils.py -/

/-- `is_binary_file`: the first 8 KiB contains a NUL or 0xFF byte, or the file is
    unreadable. -/
def is_binary_file (readable : Bool) (data : Bytes) : Bool :=
  if readable then
    let chunk := data.take 8192
    chunk.contains 0 || chunk.contains 255
  else true

/-- Number of lines Python's text-mode iteration yields (after universal-newline
    translation): one per LF plus a final unterminated line; permissive decoding
    never fails, so only the byte 10 structure matters. -/
def lineCountBytes (b : Bytes) : Nat :=
  let n := normNewlines b
  n.count 10 + (if n ≠ [] ∧ n.getLast? ≠ some 10 then 1 else 0)

/-- `safe_count_lines`: 0 for binary or unreadable files, else the line count. -/
def safe_count_lines (readable : Bool) (data : Bytes) : Nat :=
  if is_binary_file readable data then 0 else lineCountBytes data

/-- `get_directory_size`: byte total over ALL files found by `os.walk`, with no
    ignore filtering (`os.path.getsize` stats the file, so unreadable files still
    contribute their size). -/
def get_directory_size (t : FSTree) : Nat :=
  ((rglobFiles [] t).map fun f => f.data.length).sum

/-- One-decimal rendering of the dyadic rational `num / den`, models Python's
    `f"{x:.1f}"` (ties to even; the values produced by `format_size` are dyadic,
    hence exactly representable). -/
def fmt1 (num den : Nat) : String :=
  let q := num * 10 / den
  let r := num * 10 % den
  let scaled :=
    if den < 2 * r then q + 1
    else if 2 * r < den then q
    else if q % 2 = 0 then q else q + 1
  toString (scaled / 10) ++ "." ++ toString (scaled % 10)

def format_size_aux : Nat → Nat → List String → String
  | num, den, [] => fmt1 num den ++ " TB"
  | num, den, u :: rest =>
      if num < 1024 * den then fmt1 num den ++ " " ++ u
      else format_size_aux num (den * 1024) rest

/-- `format_size`: divide by 1024 through B/KB/MB/GB, one decimal place. -/
def format_size (n : Nat) : String := format_size_aux n 1 ["B", "KB", "MB", "GB"]

/- ### calculate_repo_hash (src/app.py lines 133-186) -/

/-- Model of the compiled pathspec matcher: maps the parsed pattern list and a
    candidate path to `PathSpec.from_lines(GitWildMatchPattern, ps).match_file(p)`.
    The pathspec package is external library code, so theorems quantify over this
    function; closed statements instantiate it with `fun _ _ => false`, the
    behaviour of a PathSpec compiled from no patterns. -/
abbrev PathspecModel := List String → String → Bool

/-- The filtered file list of `calculate_repo_hash` (lines 145-160): every regular
    file under the root except the root `Align.md` and entries matched by
    `should_ignore`; each kept file contributes (relative path, readable?, bytes).
    The walk visits every file individually — it does not prune ignored
    directories. -/
def hashFilesSpec (spec : String → Bool) (t : FSTree) : List (String × Bool × Bytes) :=
  (rglobFiles [] t).filterMap fun f =>
    let rel := relStr f.relParts
    if rel == "Align.md" || should_ignore f.name rel spec then none
    else some (rel, f.readable, f.data)

def hashFiles (pm : PathspecModel) (t : FSTree) : List (String × Bool × Bytes) :=
  hashFilesSpec (pm (load_gitignore_patterns t)) t

/-- Comparison key of `files.sort(key=lambda x: x[0])`. -/
abbrev byRelPath (a b : String × Bool × Bytes) : Prop := strLeB a.1 b.1 = true

instance : IsTotal (String × Bool × Bytes) byRelPath := ⟨fun a b => strLeB_total a.1 b.1⟩

instance : IsTrans (String × Bool × Bytes) byRelPath := ⟨fun _ _ _ => strLeB_trans⟩

/-- `files.sort(key=lambda x: x[0])` — stable ascending sort by relative path
    (insertion sort here; Python's sort is likewise stable, and the key order
    fully determines the result because paths are distinct). -/
def sortedHashFiles (pm : PathspecModel) (t : FSTree) : List (String × Bool × Bytes) :=
  (hashFiles pm t).insertionSort byRelPath

/-- The byte stream fed to the SHA-256 accumulator (lines 167-177), in sorted
    order: for every kept file the UTF-8 bytes of its relative path, then — when
    `path.read_bytes()` succeeds — its content bytes.  For an unreadable file the
    path bytes have already been absorbed when the read raises; only the content
    is missing. -/
def hashInput (pm : PathspecModel) (t : FSTree) : Bytes :=
  (sortedHashFiles pm t).flatMap fun e => strBytes e.1 ++ (if e.2.1 then e.2.2 else [])

/-- The files `calculate_repo_hash` records as skipped: files whose read raised in
    the hashing loop (the collection loop of lines 145-160 cannot fail in this
    model).  The list is internal — logged, never returned. -/
def calculate_repo_hash_skipped (pm : PathspecModel) (t : FSTree) : List String :=
  (sortedHashFiles pm t).filterMap fun e => if e.2.1 then none else some e.1

/-- `calculate_repo_hash`: the function's sole return value is the lowercase hex
    digest string (`sha256_hash.hexdigest()`). -/
def calculate_repo_hash (pm : PathspecModel) (t : FSTree) : String :=
  sha256Hex (hashInput pm t)

/- ### generate_markdown (src/markdown_generator.py) -/

def FSEntry.dataE : FSEntry → Bytes
  | .file _ d _ => d
  | .dir _ _ => []

def FSEntry.readableE : FSEntry → Bool
  | .file _ _ r => r
  | .dir _ _ => true

/-- One collected entry of `collect_entries`: Python stores
    `(entry, full_path, indent, level, is_dir)`; the indent string is
    `"    " * level`, and for files the stats need content and readability, so
    those are carried instead of the path handle. -/
structure MdEntry where
  name : String
  relParts : List String
  level : Nat
  isDir : Bool
  data : Bytes
  readable : Bool
deriving Repr, DecidableEq

/-- Comparison used by `sorted(dirs)` / `sorted(files)`: the tuples
    `(entry, full_path, indent_level)` order by entry name, since sibling names
    are distinct and determine the path. -/
abbrev byKidName (a b : FSEntry × List MdEntry × Nat) : Prop := strLeB a.1.name b.1.name = true

instance : IsTotal (FSEntry × List MdEntry × Nat) byKidName := ⟨fun a b => strLeB_total a.1.name b.1.name⟩

instance : IsTrans (FSEntry × List MdEntry × Nat) byKidName := ⟨fun _ _ _ => strLeB_trans⟩

/-- The non-ignored children (the `should_ignore` guard of the listing loop). -/
def keptOf (spec : String → Bool) (kids : List (FSEntry × List MdEntry × Nat))
    (pre : List String) : List (FSEntry × List MdEntry × Nat) :=
  kids.filter fun kr => !(should_ignore kr.1.name (relStr (pre ++ [kr.1.name])) spec)

/-- `sorted(dirs)` of one listing call. -/
def dirsOf (spec : String → Bool) (kids : List (FSEntry × List MdEntry × Nat))
    (pre : List String) : List (FSEntry × List MdEntry × Nat) :=
  ((keptOf spec kids pre).filter fun kr => kr.1.isDirE).insertionSort byKidName

/-- `sorted(files)` of one listing call. -/
def filesOf (spec : String → Bool) (kids : List (FSEntry × List MdEntry × Nat))
    (pre : List String) : List (FSEntry × List MdEntry × Nat) :=
  ((keptOf spec kids pre).filter fun kr => !kr.1.isDirE).insertionSort byKidName

/-- The tuple Python appends for a subdirectory. -/
def hdrEntry (pre : List String) (lvl : Nat) (kr : FSEntry × List MdEntry × Nat) : MdEntry :=
  { name := kr.1.name, relParts := pre ++ [kr.1.name], level := lvl, isDir := true,
    data := [], readable := true }

/-- The tuple Python appends for a file. -/
def fileEntryOf (pre : List String) (lvl : Nat) (kr : FSEntry × List MdEntry × Nat) : MdEntry :=
  { name := kr.1.name, relParts := pre ++ [kr.1.name], level := lvl, isDir := false,
    data := kr.1.dataE, readable := kr.1.readableE }

/-- Body of one `collect_entries(current_path, indent_level)` call
    (src/markdown_generator.py lines 19-51) given the recursion results for the
    children: drop ignored children, sort directories and files separately by name
    (Python sorts `(entry, full_path, level)` tuples, which orders by name since
    sibling names are distinct and determine the path), emit each directory entry
    followed by its subtree, then the file entries; the second component is the
    running `max_indent_level`, updated on entry to every call — including calls
    on directories that turn out empty. -/
def assembleDir (spec : String → Bool) (kids : List (FSEntry × List MdEntry × Nat))
    (pre : List String) (lvl : Nat) : List MdEntry × Nat :=
  ((dirsOf spec kids pre).flatMap (fun kr => hdrEntry pre lvl kr :: kr.2.1)
    ++ (filesOf spec kids pre).map (fileEntryOf pre lvl),
   (dirsOf spec kids pre).foldl (fun m kr => max m kr.2.2) lvl)

mutual

/-- The recursion result for one child entry: for a directory, the
    `collect_entries` output of its own call (entries plus running max level). -/
def collectKid (spec : String → Bool) (pre : List String) (lvl : Nat) :
    FSEntry → FSEntry × List MdEntry × Nat
  | .file n d r => (.file n d r, [], lvl)
  | .dir n cs =>
      (.dir n cs, assembleDir spec (collectKids spec cs (pre ++ [n]) (lvl + 1)) (pre ++ [n]) (lvl + 1))

/-- Raw recursion of the listing walk: for every child of a directory, the result
    `collect_entries` would produce for it.  Recursion descends into every
    directory; `assembleDir` discards the results of ignored children, so
    descending into an ignored directory (which Python never does) is
    value-invisible. -/
def collectKids (spec : String → Bool) : List FSEntry → List String → Nat →
    List (FSEntry × List MdEntry × Nat)
  | [], _, _ => []
  | e :: rest, pre, lvl => collectKid spec pre lvl e :: collectKids spec rest pre lvl

end

/-- The full `collect_entries(directory, 0)` pass: all entries plus the maximum
    indent level observed. -/
def collect_entries (spec : String → Bool) (t : FSTree) : List MdEntry × Nat :=
  assembleDir spec (collectKids spec t [] 0) [] 0

/-- Rendering of one collected entry (src/markdown_generator.py lines 61-84):
    directories as a bold bullet with trailing slash; files as a bullet padded to
    the document-wide stats column, with `[loc line(s), size]` stats.  Returns the
    rendered line and the file's line count (0 for directories).
    `os.path.getsize` is modelled as always succeeding (it stats, not reads). -/
def renderLine (maxWidth : Nat) (e : MdEntry) : String × Nat :=
  let indent := String.mk (List.replicate (4 * e.level) ' ')
  if e.isDir then (indent ++ "- **" ++ e.name ++ "/**", 0)
  else
    let loc := safe_count_lines e.readable e.data
    let suffix := if loc == 1 then "line" else "lines"
    let stats := "`[" ++ toString loc ++ " " ++ suffix ++ ", " ++ format_size e.data.length ++ "]`"
    let currentWidth := 4 * e.level + 2 + e.name.length
    let padding := String.mk (List.replicate (maxWidth - currentWidth) ' ')
    (indent ++ "- " ++ e.name ++ padding ++ stats, loc)

/-- `os.path.basename` of an absolute POSIX path. -/
def basenamePosix (s : String) : String := ((splitSep '/' s.data).map String.mk).getLastD ""

/-- Total of the listed files' line counts (the figure printed as `lines : n`). -/
def markdown_total_lines (spec : String → Bool) (t : FSTree) : Nat :=
  let (entries, maxIL) := collect_entries spec t
  ((entries.map (renderLine (50 + maxIL * 4))).map Prod.snd).sum

/-- `generate_markdown(directory, gitignore_spec)` (src/markdown_generator.py
    lines 10-103).  `directory` is taken as an already-absolute normalized path,
    so `os.path.abspath` is the identity on it. -/
def generate_markdown (directory : String) (spec : String → Bool) (t : FSTree) : String :=
  let (entries, maxIndentLevel) := collect_entries spec t
  let maxWidth := 50 + maxIndentLevel * 4
  let rendered := entries.map (renderLine maxWidth)
  let header :=
    ["# Project Details", "",
     "Name : " ++ basenamePosix directory,
     "path : " ++ directory,
     "size : " ++ format_size (get_directory_size t),
     "lines : " ++ toString ((rendered.map Prod.snd).sum),
     "", "## Directory Structure", ""]
  String.intercalate "\n" (header ++ rendered.map Prod.fst)

/- ### Orchestration state (src/app.py) -/

/-- In-memory `RepoChangeHandler` fields used by the synchronization logic. -/
structure Handler where
  current_hash : String
  saved_hash : Option String
  is_refreshing : Bool
  last_refresh : Int
deriving Repr, DecidableEq

/-- Per-repository slice of the outside world and its on-disk state:
    `pathExists` is `os.path.exists(path)`; `tree` the repository's directory
    tree; `sidecar` the NTFS alternate data stream `Align.md:align_hash` (the
    fingerprint sidecar, `none` when never written); `snapshotWriteOk` whether
    opening/writing `Align.md` succeeds; `sidecarWriteOk` whether writing the
    sidecar stream succeeds (false models e.g. a non-NTFS filesystem);
    `snapshotWrites` counts completed `Align.md` document writes. -/
structure Repo where
  pathExists : Bool
  tree : FSTree
  sidecar : Option String
  snapshotWriteOk : Bool
  sidecarWriteOk : Bool
  snapshotWrites : Nat
deriving Repr, DecidableEq

/-- `repo_watcher.observers` (path → live handler) plus the filesystem, keyed by
    repository path. -/
structure AppState where
  repos : List (String × Repo)
  observers : List (String × Handler)
deriving Repr, DecidableEq

def lookupA {α : Type} (l : List (String × α)) (k : String) : Option α :=
  (l.find? fun p => p.1 == k).map Prod.snd

/-- Update the first entry with the given key, if any (dictionary semantics:
    keys are unique in every state built here). -/
def updateA {α : Type} : List (String × α) → String → (α → α) → List (String × α)
  | [], _, _ => []
  | (k', v) :: rest, k, f =>
      if k' = k then (k', f v) :: rest else (k', v) :: updateA rest k f

/-- Replace the first root file named `nm` with the given bytes, or append such a
    file (a truncating text-mode write that creates the file if absent). -/
def setRootFile (nm : String) (c : Bytes) : FSTree → FSTree
  | [] => [.file nm c true]
  | .file n d r :: rest =>
      if n = nm then .file n c true :: rest else .file n d r :: setRootFile nm c rest
  | e :: rest => e :: setRootFile nm c rest

def alignMarker : Bytes := strBytes "Align.md"

/-- `ensure_align_in_gitignore` (src/app.py lines 351-377).  Reads the root
    `.gitignore` in text mode (universal newlines); if no line equals `Align.md`,
    appends `# Added by Align\nAlign.md\n` to the raw file, preceded by a newline
    when the existing content does not end in one; creates
    `# Created by Align\nAlign.md\n` when the file is missing.  Any read failure
    (unreadable file, or a directory named `.gitignore`) is caught and leaves the
    tree unchanged. -/
def ensure_align_in_gitignore (t : FSTree) : FSTree :=
  match findRoot t ".gitignore" with
  | some (.file _ data true) =>
      let content := normNewlines data
      if (splitSep 10 content).contains alignMarker then t
      else
        let sep : Bytes := if content.getLast? = some 10 then [] else [10]
        setRootFile ".gitignore" (data ++ sep ++ strBytes "# Added by Align\nAlign.md\n") t
  | some _ => t
  | none => setRootFile ".gitignore" (strBytes "# Created by Align\nAlign.md\n") t

/-- `store_hash_in_metadata` (lines 188-198): writes the hash to the sidecar
    stream, returning False — never raising — when the write fails. -/
def store_hash_in_metadata (r : Repo) (hash_value : String) : Bool × Repo :=
  if r.sidecarWriteOk then (true, { r with sidecar := some hash_value }) else (false, r)

def hasRootDirNamed (nm : String) (t : FSTree) : Bool :=
  t.any fun e => e.isDirE && e.name == nm

/-- The no-op test of `refresh_repo` (line 399):
    `handler and handler.current_hash == new_hash and
     handler.current_hash == handler.saved_hash` — false whenever no watch handler
    exists for the path. -/
def noop_check (handlerOpt : Option Handler) (new_hash : String) : Bool :=
  match handlerOpt with
  | some h => h.current_hash == new_hash && some h.current_hash == h.saved_hash
  | none => false

/-- `refresh_repo` (src/app.py lines 379-432): the reported bool and the
    post-state.  Effects in source order: (1) a missing path fails with no side
    effects; (2) `ensure_align_in_gitignore` runs first, so its `.gitignore` edit
    persists on every later outcome; (3) the fresh fingerprint is computed after
    that edit; (4) the no-op check passes only when a watch handler exists and
    `current == new == saved` — then success is reported with no writes; (5)
    otherwise the document is rendered and written — a raising open/write
    (`snapshotWriteOk = false`, or a root directory literally named `Align.md`)
    lands in the `except` handler: failure reported, handler untouched; (6) on a
    successful document write `store_hash_in_metadata` is attempted with its
    boolean result discarded, then an existing handler gets `current_hash = new`
    and `update_saved_hash` sets `saved_hash = current_hash` before attempting
    (and again ignoring) the sidecar store. -/
def refresh_repo (pm : PathspecModel) (st : AppState) (path : String) : Bool × AppState :=
  match lookupA st.repos path with
  | none => (false, st)
  | some r =>
    if !r.pathExists then (false, st)
    else
      let tree1 := ensure_align_in_gitignore r.tree
      let new_hash := calculate_repo_hash pm tree1
      if noop_check (lookupA st.observers path) new_hash then
        (true, { st with repos := updateA st.repos path fun r0 => { r0 with tree := tree1 } })
      else if !r.snapshotWriteOk || hasRootDirNamed "Align.md" tree1 then
        (false, { st with repos := updateA st.repos path fun r0 => { r0 with tree := tree1 } })
      else
        let doc := generate_markdown path (pm (load_gitignore_patterns tree1)) tree1
        (true,
          { repos := updateA st.repos path fun r0 =>
              { r0 with
                tree := setRootFile "Align.md" (strBytes doc) tree1,
                sidecar := if r0.sidecarWriteOk then some new_hash else r0.sidecar,
                snapshotWrites := r0.snapshotWrites + 1 },
            observers := updateA st.observers path fun h =>
              { h with current_hash := new_hash, saved_hash := some new_hash } })

/-- One iteration of the `_refresh_repositories` loop: refresh the repository,
    then unmark an existing handler, recompute its `current_hash` from the
    post-refresh disk state and stamp `last_refresh`. -/
def refresh_step (pm : PathspecModel) (now : Int) (acc : Nat × AppState) (p : String) :
    Nat × AppState :=
  let res := refresh_repo pm acc.2 p
  let treeNow := ((lookupA res.2.repos p).map Repo.tree).getD []
  let s2 :=
    { res.2 with observers := updateA res.2.observers p fun h =>
        { h with is_refreshing := false, current_hash := calculate_repo_hash pm treeNow,
                 last_refresh := now } }
  (acc.1 + (if res.1 then 1 else 0), s2)

/-- `_refresh_repositories` (src/app.py lines 434-488): mark the listed watched
    repositories as refreshing, then refresh each sequentially — a failed refresh
    is counted and does not stop the iteration.  The observable report is the
    status line `Realigned {successes}/{total}`; the model returns that pair with
    the final state. -/
def refresh_many (pm : PathspecModel) (st : AppState) (paths : List String) (now : Int) :
    (Nat × Nat) × AppState :=
  let markObs :=
    paths.foldl (fun obs p => updateA obs p fun h => { h with is_refreshing := true })
      st.observers
  let r := paths.foldl (refresh_step pm now) (0, { st with observers := markObs })
  ((r.1, paths.length), r.2)

/-- `RepoStatus` (src/app.py lines 33-42), presentation payload omitted. -/
inductive RepoStatus where
  | UPDATING
  | UP_TO_DATE
  | NEEDS_UPDATE
deriving Repr, DecidableEq

/-- Status derivation of `update_repo_status` (lines 640-646) for a watched
    repository: UPDATING while a refresh is in flight, UP_TO_DATE when the
    current fingerprint equals the saved one, else NEEDS_UPDATE. -/
def derive_status (h : Handler) : RepoStatus :=
  if h.is_refreshing then .UPDATING
  else if some h.current_hash == h.saved_hash then .UP_TO_DATE
  else .NEEDS_UPDATE

/- ### Association-list laws (dictionary semantics of the modelled state) -/

theorem lookupA_updateA_same {α : Type} :
    ∀ (l : List (String × α)) (k : String) (f : α → α),
      lookupA (updateA l k f) k = (lookupA l k).map f
  | [], _, _ => rfl
  | (k0, v0) :: rest, k, f => by
    by_cases hk : k0 = k
    · subst hk
      unfold updateA
      rw [if_pos rfl]
      unfold lookupA
      rw [List.find?_cons_of_pos _ (by simp), List.find?_cons_of_pos _ (by simp)]
      rfl
    · unfold updateA
      rw [if_neg hk]
      unfold lookupA
      rw [List.find?_cons_of_neg _ (by simp [hk]), List.find?_cons_of_neg _ (by simp [hk])]
      exact lookupA_updateA_same rest k f

theorem lookupA_updateA_self {α : Type} (l : List (String × α)) (k : String) (f : α → α)
    (v : α) (h : lookupA l k = some v) : lookupA (updateA l k f) k = some (f v) := by
  rw [lookupA_updateA_same, h]
  rfl

theorem lookupA_updateA_ne {α : Type} :
    ∀ (l : List (String × α)) (k : String) (f : α → α) (k' : String), k' ≠ k →
      lookupA (updateA l k f) k' = lookupA l k'
  | [], _, _, _, _ => rfl
  | (k0, v0) :: rest, k, f, k', hne => by
    by_cases hk : k0 = k
    · subst hk
      unfold updateA
      rw [if_pos rfl]
      unfold lookupA
      rw [List.find?_cons_of_neg _ (by simp; exact fun h => absurd h.symm hne),
        List.find?_cons_of_neg _ (by simp; exact fun h => absurd h.symm hne)]
    · unfold updateA
      rw [if_neg hk]
      by_cases hk' : k0 = k'
      · subst hk'
        unfold lookupA
        rw [List.find?_cons_of_pos _ (by simp), List.find?_cons_of_pos _ (by simp)]
      · unfold lookupA
        rw [List.find?_cons_of_neg _ (by simp [hk']), List.find?_cons_of_neg _ (by simp [hk'])]
        exact lookupA_updateA_ne rest k f k' hne

theorem updateA_id {α : Type} :
    ∀ (l : List (String × α)) (k : String) (f : α → α) (v : α),
      lookupA l k = some v → f v = v → updateA l k f = l
  | [], _, _, _, h, _ => by simp [lookupA, List.find?] at h
  | (k0, v0) :: rest, k, f, v, h, hf => by
    by_cases hk : k0 = k
    · subst hk
      unfold lookupA at h
      rw [List.find?_cons_of_pos _ (by simp)] at h
      simp only [Option.map_some', Option.some.injEq] at h
      unfold updateA
      rw [if_pos rfl, h, hf]
    · unfold lookupA at h
      rw [List.find?_cons_of_neg _ (by simp [hk])] at h
      unfold updateA
      rw [if_neg hk, updateA_id rest k f v h hf]

/- ### The per-repository event gate (src/app.py lines 242-270) -/

structure GateState where
  last_refresh : Int
  refreshes : List Int
deriving Repr, DecidableEq

/-- Handler construction sets `self.last_refresh = 0`. -/
def initGate : GateState := { last_refresh := 0, refreshes := [] }

/-- `RepoChangeHandler.on_any_event`, reduced to its gate: events whose path ends
    in `Align.md` or `.tmp` are always ignored; an event arriving less than
    `cooldown` after the last ACCEPTED event is dropped without updating any
    state; an accepted event records its time (`self.last_refresh = current_time`)
    and synchronously triggers `refresh_repo` — `refreshes` records those trigger
    times. -/
def on_any_event (cooldown : Int) (g : GateState) (t : Int) (src_path : String) : GateState :=
  if strEndsWith src_path "Align.md" || strEndsWith src_path ".tmp" then g
  else if t - g.last_refresh < cooldown then g
  else { last_refresh := t, refreshes := g.refreshes ++ [t] }

/-- A stream of timed events fed through the gate. -/
def gate_run (cooldown : Int) (g : GateState) (events : List (Int × String)) : GateState :=
  events.foldl (fun g e => on_any_event cooldown g e.1 e.2) g

/- ### Theorems -/

/-- C8: `should_ignore(entryName, relativePath, ruleSet)` returns true if and only
    if at least one of the following fires: (1) a literal built-in name equals the
    entry name exactly; (2) a built-in pattern starting with `*` matches the entry
    name by suffix; (3) the gitignore-style rule set matches the relative path
    either as given or with a trailing separator appended.  Quantified over every
    entry name, relative path, and compiled rule set. -/
theorem c8_should_ignore_characterization (entry_name rel_path : String) (spec : String → Bool) :
    should_ignore entry_name rel_path spec = true ↔
      ((∃ p ∈ DEFAULT_IGNORES, strStartsWith p "*" = false ∧ entry_name = p) ∨
       (∃ p ∈ DEFAULT_IGNORES, strStartsWith p "*" = true ∧ strEndsWith entry_name (strDrop1 p) = true) ∨
       spec rel_path = true ∨ spec (rel_path ++ "/") = true) := by
  have key : ∀ p : String,
      ((if strStartsWith p "*" then strEndsWith entry_name (strDrop1 p) else entry_name == p) = true) ↔
        ((strStartsWith p "*" = false ∧ entry_name = p) ∨
         (strStartsWith p "*" = true ∧ strEndsWith entry_name (strDrop1 p) = true)) := by
    intro p
    cases hs : strStartsWith p "*" <;> simp [hs]
  simp only [should_ignore, Bool.or_eq_true, List.any_eq_true, key, and_or_left, exists_or,
    or_assoc]

/-- C2 counterexample: with cooldown 5 and events at times 5, 9, 13 on an ordinary
    source path, every consecutive inter-event gap (4 and 4) is smaller than the
    cooldown, yet the gate accepts the events at t = 5 AND t = 13: a continuous
    sub-cooldown stream does not postpone synchronization indefinitely, because a
    dropped event does not update `last_refresh`, so the gate reopens one cooldown
    after the last ACCEPTED event even though the repository was not idle. -/
theorem c2_counterexample :
    ((9 : Int) - 5 < 5 ∧ (13 : Int) - 9 < 5) ∧
    (gate_run 5 initGate [(5, "/r/a.py"), (9, "/r/a.py"), (13, "/r/a.py")]).refreshes = [5, 13] := by
  constructor
  · constructor <;> decide
  · rfl

/-- Gate invariant: accepted-refresh times are pairwise at least one cooldown
    apart, and the stored `last_refresh` dominates the last accepted time. -/
def gateChain (cooldown : Int) (g : GateState) : Prop :=
  g.refreshes.Chain' (fun a b => a + cooldown ≤ b) ∧
  ∀ x ∈ g.refreshes.getLast?, x ≤ g.last_refresh

theorem gateChain_step (cooldown : Int) (g : GateState) (t : Int) (p : String)
    (h : gateChain cooldown g) : gateChain cooldown (on_any_event cooldown g t p) := by
  unfold on_any_event
  split
  · exact h
  split
  · exact h
  rename_i hcool
  constructor
  · refine List.chain'_append.mpr ⟨h.1, List.chain'_singleton _, ?_⟩
    intro x hx y hy
    simp only [List.head?_cons, Option.mem_def, Option.some.injEq] at hy
    subst hy
    have hxle := h.2 x hx
    have hc : cooldown ≤ t - g.last_refresh := le_of_not_lt hcool
    omega
  · intro x hx
    simp only [List.getLast?_concat, Option.mem_def, Option.some.injEq] at hx
    subst hx
    exact le_refl t

theorem gateChain_run (cooldown : Int) (evs : List (Int × String)) (g : GateState)
    (h : gateChain cooldown g) : gateChain cooldown (gate_run cooldown g evs) := by
  induction evs generalizing g with
  | nil => exact h
  | cons e rest ih =>
      simp only [gate_run, List.foldl_cons]
      exact ih _ (gateChain_step _ _ _ _ h)

/-- C2 amended: dropped events do not postpone the gate.  (1) An event on an
    unfiltered path arriving at least one cooldown after the last ACCEPTED event
    is accepted — regardless of how recently other (dropped) events arrived; (2)
    consecutive accepted refreshes in any run are at least one cooldown apart.  So
    a continuous stream of sub-cooldown-gap events yields a refresh roughly once
    per cooldown rather than postponing synchronization indefinitely. -/
theorem c2_amended_gate (cooldown : Int) :
    (∀ (g : GateState) (t : Int) (p : String),
        strEndsWith p "Align.md" = false → strEndsWith p ".tmp" = false →
        cooldown ≤ t - g.last_refresh →
        on_any_event cooldown g t p =
          { last_refresh := t, refreshes := g.refreshes ++ [t] }) ∧
    ∀ evs : List (Int × String),
      (gate_run cooldown initGate evs).refreshes.Chain' fun a b => a + cooldown ≤ b := by
  constructor
  · intro g t p h1 h2 h3
    simp [on_any_event, h1, h2, not_lt.mpr h3]
  · intro evs
    exact (gateChain_run cooldown evs initGate ⟨List.chain'_nil, by simp [initGate]⟩).1

/-- C2 amended, witness: a concrete event 7 seconds after the epoch passes the
    5-second gate of a fresh handler and is recorded. -/
theorem c2_amended_gate_witness :
    on_any_event 5 initGate 7 "/r/x.py" = { last_refresh := 7, refreshes := [7] } := by
  have h := (c2_amended_gate 5).1 initGate 7 "/r/x.py" (by decide) (by decide) (by decide)
  simpa [initGate] using h

/-- C5: the fingerprint depends only on the multiset of filtered
    (relative path, readability, bytes) records — permuting the traversal
    order never changes the digest, because surviving files are sorted by
    relative path before hashing.  `hnd` states that relative paths are
    distinct, which holds for every real directory tree. -/
theorem c5_fingerprint_deterministic (pm : PathspecModel) (t1 t2 : FSTree)
    (hperm : (hashFiles pm t1).Perm (hashFiles pm t2))
    (hnd : ((hashFiles pm t1).map Prod.fst).Nodup) :
    calculate_repo_hash pm t1 = calculate_repo_hash pm t2 := by
  have hperm' : (sortedHashFiles pm t1).Perm (sortedHashFiles pm t2) :=
    (List.perm_insertionSort _ _).trans (hperm.trans (List.perm_insertionSort _ _).symm)
  have hnd1 : ((sortedHashFiles pm t1).map Prod.fst).Nodup :=
    ((List.perm_insertionSort byRelPath (hashFiles pm t1)).map Prod.fst).nodup_iff.mpr hnd
  have hnd2 : ((sortedHashFiles pm t2).map Prod.fst).Nodup :=
    ((hperm'.map Prod.fst).nodup_iff).mp hnd1
  have hp1 : (sortedHashFiles pm t1).Pairwise fun a b => byRelPath a b ∧ a.1 ≠ b.1 :=
    (List.sorted_insertionSort byRelPath (hashFiles pm t1)).and (List.pairwise_map.mp hnd1)
  have hp2 : (sortedHashFiles pm t2).Pairwise fun a b => byRelPath a b ∧ a.1 ≠ b.1 :=
    (List.sorted_insertionSort byRelPath (hashFiles pm t2)).and (List.pairwise_map.mp hnd2)
  haveI : IsAntisymm (String × Bool × Bytes) fun a b => byRelPath a b ∧ a.1 ≠ b.1 :=
    ⟨fun a b h1 h2 => absurd (strLeB_antisymm h1.1 h2.1) h1.2⟩
  have hs : sortedHashFiles pm t1 = sortedHashFiles pm t2 :=
    List.eq_of_perm_of_sorted hperm' hp1 hp2
  unfold calculate_repo_hash hashInput
  rw [hs]

/-- C5 witness: two trees holding the same two files in opposite traversal order
    yield identical digests. -/
theorem c5_fingerprint_deterministic_witness :
    calculate_repo_hash (fun _ _ => false) [.file "b.txt" [66] true, .file "a.txt" [65] true] =
      calculate_repo_hash (fun _ _ => false) [.file "a.txt" [65] true, .file "b.txt" [66] true] :=
  c5_fingerprint_deterministic (fun _ _ => false) _ _ (by decide) (by decide)

/-- The sixteen characters `hexdigest` can produce. -/
def hexChars : List Char := "0123456789abcdef".data

theorem digitChar_mem_hexChars {n : Nat} (h : n < 16) : Nat.digitChar n ∈ hexChars := by
  interval_cases n <;> decide

theorem wbytes_lt (w : Nat) : ∀ b ∈ wbytes w, b < 256 := by
  intro b hb
  simp only [wbytes, List.mem_cons, List.not_mem_nil, or_false] at hb
  rcases hb with rfl | rfl | rfl | rfl <;> exact Nat.mod_lt _ (by decide)

theorem sha256Bytes_length (msg : Bytes) : (sha256Bytes msg).length = 32 := by
  simp [sha256Bytes, wbytes]

theorem sha256Bytes_lt (msg : Bytes) : ∀ b ∈ sha256Bytes msg, b < 256 := by
  have happ : ∀ l1 l2 : Bytes, (∀ x ∈ l1, x < 256) → (∀ x ∈ l2, x < 256) →
      ∀ x ∈ l1 ++ l2, x < 256 := by
    intro l1 l2 h1 h2 x hx
    rcases List.mem_append.mp hx with h | h
    · exact h1 x h
    · exact h2 x h
  exact happ _ _ (happ _ _ (happ _ _ (happ _ _ (happ _ _ (happ _ _ (happ _ _
    (wbytes_lt _) (wbytes_lt _)) (wbytes_lt _)) (wbytes_lt _)) (wbytes_lt _))
    (wbytes_lt _)) (wbytes_lt _)) (wbytes_lt _)

theorem sha256Hex_length (msg : Bytes) : (sha256Hex msg).length = 64 := by
  have h : (sha256Hex msg).data =
      ((sha256Bytes msg).map fun b => [Nat.digitChar (b / 16), Nat.digitChar (b % 16)]).flatten :=
    rfl
  show (sha256Hex msg).data.length = 64
  rw [h, List.length_flatten, List.map_map]
  have h2 : (List.length ∘ fun b : Nat => [Nat.digitChar (b / 16), Nat.digitChar (b % 16)]) =
      fun _ => 2 := rfl
  rw [h2, List.map_const', List.sum_replicate, sha256Bytes_length, smul_eq_mul]

theorem sha256Hex_mem_hexChars (msg : Bytes) : ∀ c ∈ (sha256Hex msg).data, c ∈ hexChars := by
  intro c hc
  simp only [sha256Hex, List.mem_flatten, List.mem_map] at hc
  obtain ⟨l, ⟨b, hb, rfl⟩, hcl⟩ := hc
  have hblt := sha256Bytes_lt msg b hb
  simp only [List.mem_cons, List.not_mem_nil, or_false] at hcl
  rcases hcl with rfl | rfl
  · exact digitChar_mem_hexChars (by omega)
  · exact digitChar_mem_hexChars (Nat.mod_lt _ (by decide))

/-- Projection of a collected file record to the data that actually reaches the
    hash accumulator: relative path, readability, content only when readable. -/
def maskUnreadable (e : String × Bool × Bytes) : String × Bool × Bytes :=
  (e.1, e.2.1, if e.2.1 then e.2.2 else [])

theorem orderedInsert_map_mask (a : String × Bool × Bytes) :
    ∀ l, (List.orderedInsert byRelPath a l).map maskUnreadable =
      List.orderedInsert byRelPath (maskUnreadable a) (l.map maskUnreadable)
  | [] => rfl
  | b :: l => by
    have hmask : byRelPath (maskUnreadable a) (maskUnreadable b) = byRelPath a b := rfl
    by_cases h : byRelPath a b
    · simp only [List.map_cons, List.orderedInsert, hmask, if_pos h]
    · simp only [List.map_cons, List.orderedInsert, hmask, if_neg h,
        orderedInsert_map_mask a l]

theorem insertionSort_map_mask :
    ∀ l : List (String × Bool × Bytes),
      (l.insertionSort byRelPath).map maskUnreadable =
        (l.map maskUnreadable).insertionSort byRelPath
  | [] => rfl
  | a :: l => by
    simp only [List.map_cons, List.insertionSort, ← insertionSort_map_mask l,
      orderedInsert_map_mask]

theorem flatMap_feed_masked :
    ∀ l : List (String × Bool × Bytes),
      (l.flatMap fun e => strBytes e.1 ++ (if e.2.1 then e.2.2 else [])) =
        (l.map maskUnreadable).flatMap fun m => strBytes m.1 ++ m.2.2
  | [] => rfl
  | e :: l => by
    simp only [List.flatMap_cons, List.map_cons, flatMap_feed_masked l, maskUnreadable]

theorem hashInput_eq_masked (pm : PathspecModel) (t : FSTree) :
    hashInput pm t =
      (((hashFiles pm t).map maskUnreadable).insertionSort byRelPath).flatMap
        fun m => strBytes m.1 ++ m.2.2 := by
  rw [← insertionSort_map_mask]
  exact flatMap_feed_masked _

/-- C3 amended: `calculate_repo_hash` returns only the lowercase hex digest — a
    64-character string over `0-9a-f`; the skipped list is internal (logged, not
    returned).  Every file whose read fails is recorded in that internal skipped
    list and its CONTENT is excluded from the digest (two trees whose filtered
    records agree after blanking unreadable content hash identically) — but its
    relative-path bytes are still fed to the accumulator before the read fails,
    so the file as a whole is not excluded from the hash.  The computation always
    completes. -/
theorem c3_amended (pm : PathspecModel) (t t' : FSTree) :
    ((calculate_repo_hash pm t).length = 64 ∧
      ∀ c ∈ (calculate_repo_hash pm t).data, c ∈ hexChars) ∧
    (∀ e ∈ sortedHashFiles pm t, e.2.1 = false → e.1 ∈ calculate_repo_hash_skipped pm t) ∧
    ((hashFiles pm t).map maskUnreadable = (hashFiles pm t').map maskUnreadable →
      calculate_repo_hash pm t = calculate_repo_hash pm t') := by
  refine ⟨⟨sha256Hex_length _, sha256Hex_mem_hexChars _⟩, ?_, ?_⟩
  · intro e he hr
    unfold calculate_repo_hash_skipped
    exact List.mem_filterMap.mpr ⟨e, he, by rw [hr]; rfl⟩
  · intro hmask
    unfold calculate_repo_hash
    rw [hashInput_eq_masked, hashInput_eq_masked, hmask]

/-- C3 amended, witness: a concrete unreadable file lands in the internal
    skipped list. -/
theorem c3_amended_witness :
    "u.txt" ∈ calculate_repo_hash_skipped (fun _ _ => false) [.file "u.txt" [9] false] :=
  (c3_amended (fun _ _ => false) [.file "u.txt" [9] false] []).2.1
    ("u.txt", false, [9]) (by decide) rfl

/-- C3 counterexample: for a tree holding readable `a.txt` and unreadable
    `u.txt`, the unreadable file is recorded in the internal skipped list, yet
    the digest differs from the digest of the tree without `u.txt`: the skipped
    file's relative-path bytes were fed to the accumulator before its read
    failed, so it is NOT excluded from the hash (and the function returns only
    the digest string, not the skipped list). -/
theorem c3_counterexample :
    calculate_repo_hash_skipped (fun _ _ => false)
        [.file "a.txt" [104, 105] true, .file "u.txt" [1, 2, 3] false] = ["u.txt"] ∧
    calculate_repo_hash (fun _ _ => false)
        [.file "a.txt" [104, 105] true, .file "u.txt" [1, 2, 3] false] ≠
      calculate_repo_hash (fun _ _ => false) [.file "a.txt" [104, 105] true] := by
  constructor
  · rfl
  · decide

/-- The listing scenario of the claim: `a.txt` (3 lines), `sub/b.py` (5 lines),
    ignored `sub/__pycache__/x.pyc`. -/
def c9DemoTree : FSTree :=
  [.file "a.txt" (strBytes "1\n2\n3\n") true,
   .dir "sub" [.file "b.py" (strBytes "1\n2\n3\n4\n5\n") true,
               .dir "__pycache__" [.file "x.pyc" [0, 0] true]]]

/-- The snapshot document rendered for the scenario (no gitignore rules). -/
def c9Doc : String := generate_markdown "/repo" (fun _ => false) c9DemoTree

theorem collectKid_fst (spec : String → Bool) (pre : List String) (lvl : Nat) (e : FSEntry) :
    (collectKid spec pre lvl e).1 = e := by
  cases e <;> rfl

theorem collectKids_map_fst (spec : String → Bool) :
    ∀ (cs : FSTree) (pre : List String) (lvl : Nat),
      (collectKids spec cs pre lvl).map Prod.fst = cs
  | [], _, _ => rfl
  | e :: rest, pre, lvl => by
    simp only [collectKids, List.map_cons, collectKid_fst,
      collectKids_map_fst spec rest pre lvl]

theorem collectKids_mem (spec : String → Bool) :
    ∀ (cs : FSTree) (pre : List String) (lvl : Nat)
      (kr : FSEntry × List MdEntry × Nat), kr ∈ collectKids spec cs pre lvl →
      kr = collectKid spec pre lvl kr.1
  | [], _, _, _, h => absurd h (List.not_mem_nil _)
  | e :: rest, pre, lvl, kr, h => by
    rcases List.mem_cons.mp h with rfl | h'
    · rw [collectKid_fst]
    · exact collectKids_mem spec rest pre lvl kr h'

theorem rglob_file_mem (pre : List String) :
    ∀ {cs : FSTree} {n : String} {d : Bytes} {r : Bool}, FSEntry.file n d r ∈ cs →
      (⟨pre ++ [n], n, d, r⟩ : WalkFile) ∈ rglobFiles pre cs := by
  intro cs
  induction cs with
  | nil => intro n d r h; exact absurd h (List.not_mem_nil _)
  | cons e rest ih =>
      intro n d r h
      rcases List.mem_cons.mp h with rfl | h'
      · simp [rglobFiles, rglobEntry]
      · exact List.mem_append.mpr (.inr (ih h'))

theorem rglob_dir_sub (pre : List String) :
    ∀ {cs : FSTree} {n : String} {cs' : FSTree} {w : WalkFile}, FSEntry.dir n cs' ∈ cs →
      w ∈ rglobFiles (pre ++ [n]) cs' → w ∈ rglobFiles pre cs := by
  intro cs
  induction cs with
  | nil => intro n cs' w h; exact absurd h (List.not_mem_nil _)
  | cons e rest ih =>
      intro n cs' w h hw
      rcases List.mem_cons.mp h with rfl | h'
      · exact List.mem_append.mpr (.inl hw)
      · exact List.mem_append.mpr (.inr (ih h' hw))

/-- Every file entry of the rendered listing corresponds to a file of the flat
    hashing walk at the same relative path, individually not ignored. -/
theorem listing_file_exists_in_walk (spec : String → Bool) (cs : FSTree) (pre : List String)
    (lvl : Nat) (e : MdEntry)
    (he : e ∈ (assembleDir spec (collectKids spec cs pre lvl) pre lvl).1)
    (hd : e.isDir = false) :
    ∃ w ∈ rglobFiles pre cs, w.relParts = e.relParts ∧ w.name = e.name ∧
      should_ignore w.name (relStr w.relParts) spec = false := by
  simp only [assembleDir, dirsOf, filesOf, keptOf, List.mem_append, List.mem_flatMap,
    List.mem_map, List.mem_insertionSort, List.mem_filter] at he
  rcases he with ⟨kr, ⟨⟨hkids, hig⟩, hdir⟩, hin⟩ | ⟨kr, ⟨⟨hkids, hig⟩, hfile⟩, rfl⟩
  · rcases List.mem_cons.mp hin with rfl | hsub
    · exact absurd hd (by simp [hdrEntry])
    · obtain ⟨n, cs', hkr1⟩ : ∃ n cs', kr.1 = FSEntry.dir n cs' := by
        rcases h1 : kr.1 with _ | ⟨n, cs'⟩
        · rw [h1] at hdir; simp [FSEntry.isDirE] at hdir
        · exact ⟨n, cs', rfl⟩
      have hkrep := collectKids_mem spec cs pre lvl kr hkids
      rw [hkr1] at hkrep
      have hsub2 : e ∈ (assembleDir spec (collectKids spec cs' (pre ++ [n]) (lvl + 1))
          (pre ++ [n]) (lvl + 1)).1 := by
        have : kr.2 = (collectKid spec pre lvl (FSEntry.dir n cs')).2 := by rw [hkrep]
        rw [this] at hsub
        exact hsub
      obtain ⟨w, hw, hrel, hname, hig'⟩ :=
        listing_file_exists_in_walk spec cs' (pre ++ [n]) (lvl + 1) e hsub2 hd
      have hmem : FSEntry.dir n cs' ∈ cs := by
        rw [← hkr1]
        rw [← collectKids_map_fst spec cs pre lvl]
        exact List.mem_map_of_mem Prod.fst hkids
      exact ⟨w, rglob_dir_sub pre hmem hw, hrel, hname, hig'⟩
  · obtain ⟨n, d, r, hkr1⟩ : ∃ n d r, kr.1 = FSEntry.file n d r := by
      rcases h1 : kr.1 with ⟨n, d, r⟩ | _
      · exact ⟨n, d, r, rfl⟩
      · rw [h1] at hfile; simp [FSEntry.isDirE] at hfile
    have hmem : FSEntry.file n d r ∈ cs := by
      rw [← hkr1]
      rw [← collectKids_map_fst spec cs pre lvl]
      exact List.mem_map_of_mem Prod.fst hkids
    refine ⟨⟨pre ++ [n], n, d, r⟩, rglob_file_mem pre hmem,
      by simp [hkr1, FSEntry.name, fileEntryOf], by simp [hkr1, FSEntry.name, fileEntryOf], ?_⟩
    rw [Bool.not_eq_true'] at hig
    rw [hkr1] at hig
    simpa [FSEntry.name] using hig
termination_by sizeOf cs
decreasing_by
  have h1 : sizeOf (FSEntry.dir n cs') < sizeOf cs := List.sizeOf_lt_of_mem (by
    rw [← hkr1, ← collectKids_map_fst spec cs pre lvl]
    exact List.mem_map_of_mem Prod.fst hkids)
  have h2 : sizeOf cs' < sizeOf (FSEntry.dir n cs') := by
    simp [FSEntry.dir.sizeOf_spec]
  omega

/-- C4 amended: the fingerprint walk and the listing walk do apply the identical
    matcher to each visited (entry name, relative path), but they visit different
    sets: the fingerprint enumerates every file of the tree and filters each one
    individually, while the listing prunes ignored directories and never visits
    their contents.  One inclusion survives: every file entry of the rendered
    listing (other than a root `Align.md`) is also included in the hash.  The
    converse fails (see the counterexample). -/
theorem c4_amended (pm : PathspecModel) (t : FSTree) (e : MdEntry)
    (he : e ∈ (collect_entries (pm (load_gitignore_patterns t)) t).1)
    (hfile : e.isDir = false) (hal : relStr e.relParts ≠ "Align.md") :
    relStr e.relParts ∈ (hashFiles pm t).map Prod.fst := by
  obtain ⟨w, hw, hrel, hname, hig⟩ :=
    listing_file_exists_in_walk (pm (load_gitignore_patterns t)) t [] 0 e he hfile
  unfold hashFiles hashFilesSpec
  refine List.mem_map.mpr ⟨(relStr w.relParts, w.readable, w.data), ?_, by rw [hrel]⟩
  refine List.mem_filterMap.mpr ⟨w, hw, ?_⟩
  rw [hname] at hig
  rw [if_neg]
  simp only [Bool.or_eq_true, beq_iff_eq, not_or]
  refine ⟨?_, by simp [hname, hig]⟩
  rw [hrel]
  exact hal

/-- C4 amended, witness: a concrete listed file is included in the hash. -/
theorem c4_amended_witness :
    relStr ["a.txt"] ∈
      (hashFiles (fun _ _ => false) [.file "a.txt" [65] true]).map Prod.fst :=
  c4_amended (fun _ _ => false) [.file "a.txt" [65] true]
    { name := "a.txt", relParts := ["a.txt"], level := 0, isDir := false,
      data := [65], readable := true }
    (by decide) rfl (by decide)

/-- The entries a single listing call contributes at its own indent level: its
    direct children (deeper entries carry strictly larger levels). -/
def directEntries (spec : String → Bool) (cs : FSTree) (pre : List String) (lvl : Nat) :
    List MdEntry :=
  ((assembleDir spec (collectKids spec cs pre lvl) pre lvl).1).filter fun e => e.level == lvl

/-- Every entry a listing call emits sits at its level or deeper. -/
theorem assemble_levels_ge (spec : String → Bool) (cs : FSTree) (pre : List String) (lvl : Nat)
    (e : MdEntry) (he : e ∈ (assembleDir spec (collectKids spec cs pre lvl) pre lvl).1) :
    lvl ≤ e.level := by
  simp only [assembleDir, dirsOf, filesOf, keptOf, List.mem_append, List.mem_flatMap,
    List.mem_map, List.mem_insertionSort, List.mem_filter] at he
  rcases he with ⟨kr, ⟨⟨hkids, _⟩, hdir⟩, hin⟩ | ⟨kr, _, rfl⟩
  · rcases List.mem_cons.mp hin with rfl | hsub
    · simp [hdrEntry]
    · obtain ⟨n, cs', hkr1⟩ : ∃ n cs', kr.1 = FSEntry.dir n cs' := by
        rcases h1 : kr.1 with _ | ⟨n, cs'⟩
        · rw [h1] at hdir; simp [FSEntry.isDirE] at hdir
        · exact ⟨n, cs', rfl⟩
      have hkrep := collectKids_mem spec cs pre lvl kr hkids
      rw [hkr1] at hkrep
      have hsub2 : e ∈ (assembleDir spec (collectKids spec cs' (pre ++ [n]) (lvl + 1))
          (pre ++ [n]) (lvl + 1)).1 := by
        have h2 : kr.2 = (collectKid spec pre lvl (FSEntry.dir n cs')).2 := by rw [hkrep]
        rw [h2] at hsub
        exact hsub
      have := assemble_levels_ge spec cs' (pre ++ [n]) (lvl + 1) e hsub2
      omega
  · simp [fileEntryOf]
termination_by sizeOf cs
decreasing_by
  have h1 : sizeOf (FSEntry.dir n cs') < sizeOf cs := List.sizeOf_lt_of_mem (by
    rw [← hkr1, ← collectKids_map_fst spec cs pre lvl]
    exact List.mem_map_of_mem Prod.fst hkids)
  have h2 : sizeOf cs' < sizeOf (FSEntry.dir n cs') := by
    simp [FSEntry.dir.sizeOf_spec]
  omega

/-- The subtree entries hanging under a sorted directory child all sit strictly
    deeper than the emitting level. -/
theorem dirsOf_sub_levels (spec : String → Bool) (cs : FSTree) (pre : List String) (lvl : Nat) :
    ∀ kr ∈ dirsOf spec (collectKids spec cs pre lvl) pre, ∀ e ∈ kr.2.1, lvl + 1 ≤ e.level := by
  intro kr hkr e he
  simp only [dirsOf, keptOf, List.mem_insertionSort, List.mem_filter] at hkr
  obtain ⟨⟨hkids, _⟩, hdir⟩ := hkr
  obtain ⟨n, cs', hkr1⟩ : ∃ n cs', kr.1 = FSEntry.dir n cs' := by
    rcases h1 : kr.1 with _ | ⟨n, cs'⟩
    · rw [h1] at hdir; simp [FSEntry.isDirE] at hdir
    · exact ⟨n, cs', rfl⟩
  have hkrep := collectKids_mem spec cs pre lvl kr hkids
  rw [hkr1] at hkrep
  have he2 : e ∈ (assembleDir spec (collectKids spec cs' (pre ++ [n]) (lvl + 1))
      (pre ++ [n]) (lvl + 1)).1 := by
    have h2 : kr.2 = (collectKid spec pre lvl (FSEntry.dir n cs')).2 := by rw [hkrep]
    rw [h2] at he
    exact he
  exact assemble_levels_ge spec cs' (pre ++ [n]) (lvl + 1) e he2

theorem filter_level_flatMap (lvl : Nat) (pre : List String) :
    ∀ l : List (FSEntry × List MdEntry × Nat),
      (∀ kr ∈ l, ∀ e ∈ kr.2.1, e.level ≠ lvl) →
      ((l.flatMap fun kr => hdrEntry pre lvl kr :: kr.2.1).filter fun e => e.level == lvl) =
        l.map (hdrEntry pre lvl)
  | [], _ => rfl
  | kr :: l, h => by
    have hnil : (kr.2.1.filter fun e => e.level == lvl) = [] := by
      refine List.filter_eq_nil_iff.mpr ?_
      intro e he
      simpa using h kr (List.mem_cons_self kr l) e he
    simp only [List.flatMap_cons, List.filter_append, List.filter_cons, List.map_cons]
    rw [if_pos (by simp [hdrEntry]), hnil,
      filter_level_flatMap lvl pre l fun kr' h' => h kr' (List.mem_cons_of_mem _ h')]
    rfl

theorem filter_level_map_file (lvl : Nat) (pre : List String)
    (l : List (FSEntry × List MdEntry × Nat)) :
    ((l.map (fileEntryOf pre lvl)).filter fun e => e.level == lvl) =
      l.map (fileEntryOf pre lvl) := by
  refine List.filter_eq_self.mpr ?_
  intro e he
  obtain ⟨kr, _, rfl⟩ := List.mem_map.mp he
  simp [fileEntryOf]

/-- The direct entries of a listing call are: the sorted directory headers,
    then the sorted file entries. -/
theorem directEntries_eq (spec : String → Bool) (cs : FSTree) (pre : List String) (lvl : Nat) :
    directEntries spec cs pre lvl =
      (dirsOf spec (collectKids spec cs pre lvl) pre).map (hdrEntry pre lvl) ++
      (filesOf spec (collectKids spec cs pre lvl) pre).map (fileEntryOf pre lvl) := by
  unfold directEntries assembleDir
  rw [List.filter_append,
    filter_level_flatMap lvl pre _ (fun kr hkr e he =>
      Nat.ne_of_gt (dirsOf_sub_levels spec cs pre lvl kr hkr e he)),
    filter_level_map_file]

/-- C9: at every directory level of the rendered listing, all non-ignored
    subdirectories come before the non-ignored files of that level, each group
    sorted ascending by name (Python string order), and every emitted entry
    passed the ignore check; in particular, for a root containing `a.txt`
    (3 lines), `sub/b.py` (5 lines) and an ignored `sub/__pycache__/x.pyc`, the
    document lists `sub/` directly before the nested `b.py` (one 4-space level
    deep) and before `a.txt`, reports `lines : 8`, and contains no occurrence of
    `__pycache__`. -/
theorem c9_listing_order :
    (∀ (spec : String → Bool) (cs : FSTree) (pre : List String) (lvl : Nat),
      (directEntries spec cs pre lvl =
          ((directEntries spec cs pre lvl).filter fun e => e.isDir) ++
            ((directEntries spec cs pre lvl).filter fun e => !e.isDir)) ∧
      ((((directEntries spec cs pre lvl).filter fun e => e.isDir).map MdEntry.name).Pairwise
        fun a b => strLeB a b = true) ∧
      ((((directEntries spec cs pre lvl).filter fun e => !e.isDir).map MdEntry.name).Pairwise
        fun a b => strLeB a b = true) ∧
      ∀ e ∈ directEntries spec cs pre lvl,
        should_ignore e.name (relStr (pre ++ [e.name])) spec = false) ∧
    ((linesOf c9Doc).contains "- **sub/**" = true ∧
      (linesOf c9Doc).findIdx (fun l => l == "- **sub/**") + 1 =
        (linesOf c9Doc).findIdx (fun l => strStartsWith l "    - b.py") ∧
      (linesOf c9Doc).findIdx (fun l => strStartsWith l "    - b.py") <
        (linesOf c9Doc).findIdx (fun l => strStartsWith l "- a.txt") ∧
      ((linesOf c9Doc).any fun l => strStartsWith l "- a.txt") = true ∧
      (linesOf c9Doc).contains "lines : 8" = true ∧
      listContainsSub "__pycache__".data c9Doc.data = false) := by
  constructor
  · intro spec cs pre lvl
    have hD := directEntries_eq spec cs pre lvl
    have hdirs : ((directEntries spec cs pre lvl).filter fun e => e.isDir) =
        (dirsOf spec (collectKids spec cs pre lvl) pre).map (hdrEntry pre lvl) := by
      rw [hD, List.filter_append,
        List.filter_eq_self.mpr (fun e he => by
          obtain ⟨kr, _, rfl⟩ := List.mem_map.mp he
          simp [hdrEntry]),
        List.filter_eq_nil_iff.mpr (fun e he => by
          obtain ⟨kr, _, rfl⟩ := List.mem_map.mp he
          simp [fileEntryOf]),
        List.append_nil]
    have hfiles : ((directEntries spec cs pre lvl).filter fun e => !e.isDir) =
        (filesOf spec (collectKids spec cs pre lvl) pre).map (fileEntryOf pre lvl) := by
      rw [hD, List.filter_append,
        List.filter_eq_nil_iff.mpr (fun e he => by
          obtain ⟨kr, _, rfl⟩ := List.mem_map.mp he
          simp [hdrEntry]),
        List.filter_eq_self.mpr (fun e he => by
          obtain ⟨kr, _, rfl⟩ := List.mem_map.mp he
          simp [fileEntryOf]),
        List.nil_append]
    refine ⟨by rw [hdirs, hfiles, hD], ?_, ?_, ?_⟩
    · rw [hdirs, List.map_map]
      exact List.pairwise_map.mpr (List.sorted_insertionSort byKidName _)
    · rw [hfiles, List.map_map]
      exact List.pairwise_map.mpr (List.sorted_insertionSort byKidName _)
    · intro e he
      rw [hD] at he
      rcases List.mem_append.mp he with h | h
      · obtain ⟨kr, hkr, rfl⟩ := List.mem_map.mp h
        have hkept : kr ∈ keptOf spec (collectKids spec cs pre lvl) pre := by
          simp only [dirsOf, List.mem_insertionSort, List.mem_filter] at hkr
          exact hkr.1
        simp only [keptOf, List.mem_filter, Bool.not_eq_true'] at hkept
        simpa [hdrEntry] using hkept.2
      · obtain ⟨kr, hkr, rfl⟩ := List.mem_map.mp h
        have hkept : kr ∈ keptOf spec (collectKids spec cs pre lvl) pre := by
          simp only [filesOf, List.mem_insertionSort, List.mem_filter] at hkr
          exact hkr.1
        simp only [keptOf, List.mem_filter, Bool.not_eq_true'] at hkept
        simpa [fileEntryOf] using hkept.2
  · decide

/-- C9 witness: the general half applied to a concrete one-file tree — its
    single direct entry passed the ignore check. -/
theorem c9_listing_order_witness :
    should_ignore "a.txt" (relStr ([] ++ ["a.txt"])) (fun _ => false) = false :=
  (c9_listing_order.1 (fun _ => false) [.file "a.txt" [65] true] [] 0).2.2.2
    { name := "a.txt", relParts := ["a.txt"], level := 0, isDir := false,
      data := [65], readable := true }
    (by decide)

/-- C4 counterexample: with no gitignore rules, the file
    `__pycache__/data.txt` is included in the fingerprint (its own name matches
    no rule — the hash walk filters each file individually), yet the rendered
    listing is empty because the listing walk prunes the ignored `__pycache__`
    directory; so the hash does not correspond to what is listed. -/
theorem c4_counterexample :
    ((hashFiles (fun _ _ => false) [.dir "__pycache__" [.file "data.txt" [120] true]]).map
        Prod.fst = ["__pycache__/data.txt"]) ∧
    (collect_entries (fun _ => false) [.dir "__pycache__" [.file "data.txt" [120] true]]).1
      = [] := by
  constructor
  · rfl
  · rfl

/- ### Branch behaviour of refresh_repo -/

theorem refresh_repo_writes (pm : PathspecModel) (st : AppState) (path : String) (r : Repo)
    (hr : lookupA st.repos path = some r) (hex : r.pathExists = true)
    (hskip : noop_check (lookupA st.observers path)
      (calculate_repo_hash pm (ensure_align_in_gitignore r.tree)) = false)
    (hsnap : r.snapshotWriteOk = true)
    (hdir : hasRootDirNamed "Align.md" (ensure_align_in_gitignore r.tree) = false) :
    refresh_repo pm st path =
      (true,
        { repos := updateA st.repos path fun r0 =>
            { r0 with
              tree := setRootFile "Align.md"
                (strBytes (generate_markdown path
                  (pm (load_gitignore_patterns (ensure_align_in_gitignore r.tree)))
                  (ensure_align_in_gitignore r.tree)))
                (ensure_align_in_gitignore r.tree),
              sidecar := if r0.sidecarWriteOk
                then some (calculate_repo_hash pm (ensure_align_in_gitignore r.tree))
                else r0.sidecar,
              snapshotWrites := r0.snapshotWrites + 1 },
          observers := updateA st.observers path fun h =>
            { h with
              current_hash := calculate_repo_hash pm (ensure_align_in_gitignore r.tree),
              saved_hash := some (calculate_repo_hash pm (ensure_align_in_gitignore r.tree)) } }) := by
  unfold refresh_repo
  rw [hr]
  simp [hex, hskip, hsnap, hdir]

theorem refresh_repo_skips (pm : PathspecModel) (st : AppState) (path : String) (r : Repo)
    (hr : lookupA st.repos path = some r) (hex : r.pathExists = true)
    (hskip : noop_check (lookupA st.observers path)
      (calculate_repo_hash pm (ensure_align_in_gitignore r.tree)) = true) :
    refresh_repo pm st path =
      (true, { st with repos := updateA st.repos path fun r0 =>
          { r0 with tree := ensure_align_in_gitignore r.tree } }) := by
  unfold refresh_repo
  rw [hr]
  simp [hex, hskip]

theorem refresh_repo_write_fails (pm : PathspecModel) (st : AppState) (path : String) (r : Repo)
    (hr : lookupA st.repos path = some r) (hex : r.pathExists = true)
    (hskip : noop_check (lookupA st.observers path)
      (calculate_repo_hash pm (ensure_align_in_gitignore r.tree)) = false)
    (hfail : (!r.snapshotWriteOk ||
      hasRootDirNamed "Align.md" (ensure_align_in_gitignore r.tree)) = true) :
    refresh_repo pm st path =
      (false, { st with repos := updateA st.repos path fun r0 =>
          { r0 with tree := ensure_align_in_gitignore r.tree } }) := by
  unfold refresh_repo
  rw [hr]
  simp [hex, hskip, hfail]

theorem refresh_repo_frame (pm : PathspecModel) (st : AppState) (path q : String)
    (hq : q ≠ path) :
    lookupA (refresh_repo pm st path).2.repos q = lookupA st.repos q ∧
    lookupA (refresh_repo pm st path).2.observers q = lookupA st.observers q := by
  unfold refresh_repo
  cases hr : lookupA st.repos path with
  | none => exact ⟨rfl, rfl⟩
  | some r =>
    dsimp only
    split
    · exact ⟨rfl, rfl⟩
    · split
      · exact ⟨lookupA_updateA_ne st.repos path _ q hq, rfl⟩
      · split
        · exact ⟨lookupA_updateA_ne st.repos path _ q hq, rfl⟩
        · exact ⟨lookupA_updateA_ne st.repos path _ q hq,
            lookupA_updateA_ne st.observers path _ q hq⟩

/-- C10: the no-op skip of `refresh_repo` requires a live watch handler — for an
    existing repository path with no entry in the watcher's observer map, every
    refresh call rewrites the snapshot document and re-stores the sidecar hash
    even when the freshly computed fingerprint equals the persisted one
    (`hprev`). -/
theorem c10_noop_requires_watcher (pm : PathspecModel) (st : AppState) (path : String)
    (r : Repo)
    (hr : lookupA st.repos path = some r) (hex : r.pathExists = true)
    (hobs : lookupA st.observers path = none)
    (hsnap : r.snapshotWriteOk = true) (hside : r.sidecarWriteOk = true)
    (hdir : hasRootDirNamed "Align.md" (ensure_align_in_gitignore r.tree) = false)
    (hprev : r.sidecar = some (calculate_repo_hash pm (ensure_align_in_gitignore r.tree))) :
    (refresh_repo pm st path).1 = true ∧
    ((lookupA (refresh_repo pm st path).2.repos path).map Repo.snapshotWrites) =
      some (r.snapshotWrites + 1) ∧
    ((lookupA (refresh_repo pm st path).2.repos path).map Repo.sidecar) =
      some (some (calculate_repo_hash pm (ensure_align_in_gitignore r.tree))) := by
  have hskip : noop_check (lookupA st.observers path)
      (calculate_repo_hash pm (ensure_align_in_gitignore r.tree)) = false := by
    rw [hobs]
    rfl
  rw [refresh_repo_writes pm st path r hr hex hskip hsnap hdir]
  refine ⟨rfl, ?_, ?_⟩
  · simp [lookupA_updateA_same, hr]
  · simp [lookupA_updateA_same, hr, hside]

/-- A concrete unwatched repository whose sidecar already holds the freshly
    computed fingerprint of its own tree. -/
def c10Repo : Repo :=
  { pathExists := true, tree := [.file "a.txt" [65] true],
    sidecar := some (calculate_repo_hash (fun _ _ => false)
      (ensure_align_in_gitignore [.file "a.txt" [65] true])),
    snapshotWriteOk := true, sidecarWriteOk := true, snapshotWrites := 0 }

/-- C10 witness: a concrete unwatched repository whose sidecar already holds the
    freshly computed fingerprint is still rewritten. -/
theorem c10_noop_requires_watcher_witness :
    (refresh_repo (fun _ _ => false)
      { repos := [("r", c10Repo)], observers := [] } "r").1 = true :=
  (c10_noop_requires_watcher (fun _ _ => false)
    { repos := [("r", c10Repo)], observers := [] } "r" c10Repo
    rfl rfl rfl rfl rfl (by decide) rfl).1

/-- The state of the C1 scenario: an existing, watched repository whose snapshot
    write succeeds but whose sidecar (alternate data stream) write fails; the
    on-disk sidecar holds "old", the handler's in-memory record is
    ("stale", persisted "persisted"), so the repository is out of sync. -/
def c1Repo : Repo :=
  { pathExists := true, tree := [.file "a.txt" [65] true],
    sidecar := some "old", snapshotWriteOk := true, sidecarWriteOk := false,
    snapshotWrites := 0 }

/-- The handler of the C1 scenario: in-memory record ("stale", persisted). -/
def c1Handler : Handler :=
  { current_hash := "stale", saved_hash := some "persisted",
    is_refreshing := false, last_refresh := 0 }

def c1State : AppState :=
  { repos := [("r", c1Repo)], observers := [("r", c1Handler)] }

/-- C1 counterexample: with the sidecar store failing after a successful snapshot
    write, `refresh_repo` reports SUCCESS (the claim says failure), the
    in-memory record is advanced to the new fingerprint (the claim says it is
    left at its pre-refresh value "stale"), and the derived status becomes
    UP_TO_DATE (the claim says NEEDS_UPDATE) — while the on-disk sidecar still
    holds the stale value "old". -/
theorem c1_counterexample :
    (refresh_repo (fun _ _ => false) c1State "r").1 = true ∧
    ((lookupA (refresh_repo (fun _ _ => false) c1State "r").2.repos "r").map Repo.sidecar) =
      some (some "old") ∧
    ((lookupA (refresh_repo (fun _ _ => false) c1State "r").2.observers "r").map
      derive_status) = some RepoStatus.UP_TO_DATE ∧
    ((lookupA (refresh_repo (fun _ _ => false) c1State "r").2.observers "r").map
      Handler.current_hash) ≠ some "stale" := by
  decide

/-- C1 amended: when the sidecar store fails after a successful snapshot write,
    the whole refresh still reports success, the on-disk sidecar keeps its old
    value, and the in-memory record is set to
    current = persisted = new fingerprint, so the derived status becomes
    UP_TO_DATE — the repository is marked synced despite the failed fingerprint
    persistence (`store_hash_in_metadata`'s False return is discarded and
    `update_saved_hash` assigns `saved_hash` before attempting the store). -/
theorem c1_amended (pm : PathspecModel) (st : AppState) (path : String)
    (r : Repo) (h : Handler)
    (hr : lookupA st.repos path = some r) (hex : r.pathExists = true)
    (hsnap : r.snapshotWriteOk = true) (hside : r.sidecarWriteOk = false)
    (hobs : lookupA st.observers path = some h) (href : h.is_refreshing = false)
    (hdir : hasRootDirNamed "Align.md" (ensure_align_in_gitignore r.tree) = false)
    (hskip : noop_check (some h)
      (calculate_repo_hash pm (ensure_align_in_gitignore r.tree)) = false) :
    (refresh_repo pm st path).1 = true ∧
    ((lookupA (refresh_repo pm st path).2.repos path).map Repo.sidecar) = some r.sidecar ∧
    (lookupA (refresh_repo pm st path).2.observers path) =
      some { h with
        current_hash := calculate_repo_hash pm (ensure_align_in_gitignore r.tree),
        saved_hash := some (calculate_repo_hash pm (ensure_align_in_gitignore r.tree)) } ∧
    derive_status { h with
        current_hash := calculate_repo_hash pm (ensure_align_in_gitignore r.tree),
        saved_hash := some (calculate_repo_hash pm (ensure_align_in_gitignore r.tree)) } =
      RepoStatus.UP_TO_DATE := by
  have hskip' : noop_check (lookupA st.observers path)
      (calculate_repo_hash pm (ensure_align_in_gitignore r.tree)) = false := by
    rw [hobs]
    exact hskip
  rw [refresh_repo_writes pm st path r hr hex hskip' hsnap hdir]
  refine ⟨rfl, ?_, ?_, ?_⟩
  · simp [lookupA_updateA_same, hr, hside]
  · simp [lookupA_updateA_same, hobs]
  · unfold derive_status
    simp [href]

/-- C1 amended, witness: the concrete scenario state, refreshed once. -/
theorem c1_amended_witness :
    (refresh_repo (fun _ _ => false) c1State "r").1 = true :=
  (c1_amended (fun _ _ => false) c1State "r" c1Repo c1Handler
    rfl rfl rfl rfl rfl rfl (by decide) (by decide)).1

/- ### Idempotence of the gitignore-marker insertion (C6 support) -/

theorem splitSep_ne_nil {α : Type} [DecidableEq α] (sep : α) : ∀ ys : List α,
    splitSep sep ys ≠ []
  | [] => by simp [splitSep]
  | c :: rest => by
    unfold splitSep
    by_cases h : c = sep
    · simp [h]
    · rw [if_neg h]
      cases hs : splitSep sep rest <;> simp

theorem splitSep_tail_mem_cons {α : Type} [DecidableEq α] (sep c : α) (a : List α)
    (ys : List α) (h : a ∈ (splitSep sep ys).tail) : a ∈ (splitSep sep (c :: ys)).tail := by
  unfold splitSep
  by_cases hc : c = sep
  · rw [if_pos hc]
    exact List.mem_of_mem_tail h
  · rw [if_neg hc]
    cases hs : splitSep sep ys with
    | nil => exact absurd hs (splitSep_ne_nil sep ys)
    | cons l ls =>
      rw [hs] at h
      simpa using h

theorem norm_cons13_cons10 (r : Bytes) : normNewlines (13 :: 10 :: r) = 10 :: normNewlines r := by
  simp [normNewlines]

theorem norm_cons13_ne10 (c : Nat) (hc : c ≠ 10) (r : Bytes) :
    normNewlines (13 :: c :: r) = 10 :: normNewlines (c :: r) := by
  simp [normNewlines, hc]

theorem norm_cons_ne13 (c : Nat) (hc : c ≠ 13) : ∀ ys : Bytes,
    normNewlines (c :: ys) = c :: normNewlines ys
  | [] => by simp [normNewlines, hc]
  | z :: r => by simp [normNewlines, hc]

/-- After any prefix, a line holding exactly `Align.md` delimited by LFs survives
    universal-newline translation and appears as a non-initial `split('\n')`
    chunk. -/
theorem alignMarker_mem_split_aux : ∀ (n : Nat) (xs : Bytes), xs.length ≤ n →
    alignMarker ∈ (splitSep 10 (normNewlines (xs ++ 10 :: (alignMarker ++ [10])))).tail
  | _, [], _ => by decide
  | 0, c :: rest, h => by simp at h
  | n + 1, c :: rest, h => by
    by_cases h13 : c = 13
    · subst h13
      cases rest with
      | nil => decide
      | cons c2 rest' =>
        by_cases h10 : c2 = 10
        · subst h10
          have ih := alignMarker_mem_split_aux n rest' (by simp at h; omega)
          rw [List.cons_append, List.cons_append, norm_cons13_cons10]
          have hmem := List.mem_of_mem_tail ih
          unfold splitSep
          simpa using hmem
        · have ih := alignMarker_mem_split_aux n (c2 :: rest') (by simp at h ⊢; omega)
          rw [List.cons_append, List.cons_append, norm_cons13_ne10 c2 h10]
          rw [← List.cons_append] at ih
          have hmem := List.mem_of_mem_tail ih
          unfold splitSep
          simpa using hmem
    · have ih := alignMarker_mem_split_aux n rest (by simp at h; omega)
      rw [List.cons_append, norm_cons_ne13 c h13]
      exact splitSep_tail_mem_cons 10 c _ _ ih

theorem alignMarker_mem_split (xs : Bytes) :
    alignMarker ∈ (splitSep 10 (normNewlines (xs ++ 10 :: (alignMarker ++ [10])))).tail :=
  alignMarker_mem_split_aux xs.length xs le_rfl

theorem findRoot_setRootFile_same : ∀ (t : FSTree) (nm : String) (c d : Bytes) (rd : Bool)
    (n : String), findRoot t nm = some (.file n d rd) →
    findRoot (setRootFile nm c t) nm = some (.file n c true)
  | [], _, _, _, _, _, h => by simp [findRoot] at h
  | .file n' d' r' :: rest, nm, c, d, rd, n, h => by
    by_cases hn : n' = nm
    · subst hn
      unfold findRoot at h
      rw [List.find?_cons_of_pos _ (by simp [FSEntry.name])] at h
      obtain ⟨h1, h2, h3⟩ := by simpa [FSEntry.file.injEq] using h
      subst h1; subst h2; subst h3
      unfold setRootFile
      rw [if_pos rfl]
      unfold findRoot
      rw [List.find?_cons_of_pos _ (by simp [FSEntry.name])]
    · unfold findRoot at h
      rw [List.find?_cons_of_neg _ (by simp [FSEntry.name, hn])] at h
      unfold setRootFile
      rw [if_neg hn]
      unfold findRoot
      rw [List.find?_cons_of_neg _ (by simp [FSEntry.name, hn])]
      exact findRoot_setRootFile_same rest nm c d rd n h
  | .dir n' cs :: rest, nm, c, d, rd, n, h => by
    by_cases hn : n' = nm
    · subst hn
      unfold findRoot at h
      rw [List.find?_cons_of_pos _ (by simp [FSEntry.name])] at h
      simp at h
    · unfold findRoot at h
      rw [List.find?_cons_of_neg _ (by simp [FSEntry.name, hn])] at h
      unfold setRootFile
      unfold findRoot
      rw [List.find?_cons_of_neg _ (by simp [FSEntry.name, hn])]
      exact findRoot_setRootFile_same rest nm c d rd n h

theorem findRoot_setRootFile_none : ∀ (t : FSTree) (nm : String) (c : Bytes),
    findRoot t nm = none → findRoot (setRootFile nm c t) nm = some (.file nm c true)
  | [], nm, c, _ => by simp [setRootFile, findRoot, FSEntry.name]
  | .file n' d' r' :: rest, nm, c, h => by
    unfold findRoot at h
    rw [List.find?_eq_none] at h
    have hn : n' ≠ nm := by
      intro he
      exact h (.file n' d' r') (by simp) (by simp [FSEntry.name, he])
    unfold setRootFile
    rw [if_neg hn]
    unfold findRoot
    rw [List.find?_cons_of_neg _ (by simp [FSEntry.name, hn])]
    refine findRoot_setRootFile_none rest nm c ?_
    unfold findRoot
    rw [List.find?_eq_none]
    intro e he
    exact h e (by simp [he])
  | .dir n' cs :: rest, nm, c, h => by
    unfold findRoot at h
    rw [List.find?_eq_none] at h
    have hn : n' ≠ nm := by
      intro he
      exact h (.dir n' cs) (by simp) (by simp [FSEntry.name, he])
    unfold setRootFile
    unfold findRoot
    rw [List.find?_cons_of_neg _ (by simp [FSEntry.name, hn])]
    refine findRoot_setRootFile_none rest nm c ?_
    unfold findRoot
    rw [List.find?_eq_none]
    intro e he
    exact h e (by simp [he])

theorem findRoot_setRootFile_ne : ∀ (t : FSTree) (nm nm' : String) (c : Bytes), nm ≠ nm' →
    findRoot (setRootFile nm c t) nm' = findRoot t nm'
  | [], nm, nm', c, hne => by
    simp [setRootFile, findRoot, FSEntry.name, hne]
  | .file n' d' r' :: rest, nm, nm', c, hne => by
    by_cases hn : n' = nm
    · subst hn
      unfold setRootFile
      rw [if_pos rfl]
      unfold findRoot
      rw [List.find?_cons_of_neg _ (by simp [FSEntry.name]; exact fun h => absurd h hne),
        List.find?_cons_of_neg _ (by simp [FSEntry.name]; exact fun h => absurd h hne)]
    · unfold setRootFile
      rw [if_neg hn]
      by_cases hm : n' = nm'
      · subst hm
        unfold findRoot
        rw [List.find?_cons_of_pos _ (by simp [FSEntry.name]),
          List.find?_cons_of_pos _ (by simp [FSEntry.name])]
      · unfold findRoot
        rw [List.find?_cons_of_neg _ (by simp [FSEntry.name, hm]),
          List.find?_cons_of_neg _ (by simp [FSEntry.name, hm])]
        exact findRoot_setRootFile_ne rest nm nm' c hne
  | .dir n' cs :: rest, nm, nm', c, hne => by
    unfold setRootFile
    by_cases hm : n' = nm'
    · subst hm
      unfold findRoot
      rw [List.find?_cons_of_pos _ (by simp [FSEntry.name]),
        List.find?_cons_of_pos _ (by simp [FSEntry.name])]
    · unfold findRoot
      rw [List.find?_cons_of_neg _ (by simp [FSEntry.name, hm]),
        List.find?_cons_of_neg _ (by simp [FSEntry.name, hm])]
      exact findRoot_setRootFile_ne rest nm nm' c hne

theorem added_bytes_decomp :
    strBytes "# Added by Align\nAlign.md\n" =
      strBytes "# Added by Align" ++ 10 :: (alignMarker ++ [10]) := by decide

theorem contains_align_suffix (xs ys hb : Bytes)
    (hys : ys = hb ++ 10 :: (alignMarker ++ [10])) :
    ((splitSep 10 (normNewlines (xs ++ ys))).contains alignMarker) = true := by
  subst hys
  refine List.elem_iff.mpr ?_
  have hmem := List.mem_of_mem_tail (alignMarker_mem_split (xs ++ hb))
  rw [← List.append_assoc]
  exact hmem

/-- A tree whose root `.gitignore` needs no edit from `ensure_align_in_gitignore`:
    either the readable root `.gitignore` file already holds a line equal to
    `Align.md`, or the first root entry of that name is not a readable file (the
    text-mode read raises and the exception is swallowed). -/
def gitignore_settled (t : FSTree) : Prop :=
  match findRoot t ".gitignore" with
  | some (.file _ data true) => (splitSep 10 (normNewlines data)).contains alignMarker = true
  | some _ => True
  | none => False

theorem ensure_of_settled (t : FSTree) (h : gitignore_settled t) :
    ensure_align_in_gitignore t = t := by
  unfold gitignore_settled at h
  unfold ensure_align_in_gitignore
  cases hf : findRoot t ".gitignore" with
  | none => rw [hf] at h; exact h.elim
  | some e =>
    rw [hf] at h
    cases e with
    | file n d rd =>
      cases rd with
      | false => rfl
      | true =>
        have h' : (splitSep 10 (normNewlines d)).contains alignMarker = true := h
        dsimp only
        rw [if_pos h']
    | dir n cs => rfl

theorem gitignore_settled_ensure (t : FSTree) :
    gitignore_settled (ensure_align_in_gitignore t) := by
  unfold ensure_align_in_gitignore
  cases hf : findRoot t ".gitignore" with
  | none =>
    unfold gitignore_settled
    rw [findRoot_setRootFile_none t ".gitignore" _ hf]
    decide
  | some e =>
    cases e with
    | dir n cs =>
      unfold gitignore_settled
      rw [hf]
      trivial
    | file n d rd =>
      cases rd with
      | false =>
        unfold gitignore_settled
        rw [hf]
        trivial
      | true =>
        by_cases hc : (splitSep 10 (normNewlines d)).contains alignMarker = true
        · dsimp only
          rw [if_pos hc]
          unfold gitignore_settled
          rw [hf]
          exact hc
        · dsimp only
          rw [if_neg hc]
          unfold gitignore_settled
          rw [findRoot_setRootFile_same t ".gitignore" _ d true n hf]
          dsimp only
          exact contains_align_suffix _ _ _ added_bytes_decomp

theorem gitignore_settled_setRootFile (t : FSTree) (nm : String) (c : Bytes)
    (hnm : nm ≠ ".gitignore") (h : gitignore_settled t) :
    gitignore_settled (setRootFile nm c t) := by
  unfold gitignore_settled at h ⊢
  rw [findRoot_setRootFile_ne t nm ".gitignore" c hnm]
  exact h

theorem load_gitignore_setRootFile_ne (t : FSTree) (nm : String) (c : Bytes)
    (hnm : nm ≠ ".gitignore") :
    load_gitignore_patterns (setRootFile nm c t) = load_gitignore_patterns t := by
  unfold load_gitignore_patterns
  rw [findRoot_setRootFile_ne t nm ".gitignore" c hnm]

theorem relStr_singleton (s : String) : relStr [s] = s := rfl

theorem hashFilesSpec_setAlign (spec : String → Bool) (c : Bytes) : ∀ t : FSTree,
    hashFilesSpec spec (setRootFile "Align.md" c t) = hashFilesSpec spec t
  | [] => by
    simp [hashFilesSpec, setRootFile, rglobFiles, rglobEntry, relStr_singleton]
  | .file n d r :: rest => by
    by_cases hn : n = "Align.md"
    · subst hn
      simp [hashFilesSpec, setRootFile, rglobFiles, rglobEntry, relStr_singleton]
    · have ih := hashFilesSpec_setAlign spec c rest
      simp only [hashFilesSpec] at ih ⊢
      simp only [setRootFile, if_neg hn, rglobFiles, List.filterMap_append]
      rw [ih]
  | .dir n cs :: rest => by
    have ih := hashFilesSpec_setAlign spec c rest
    simp only [hashFilesSpec] at ih ⊢
    simp only [setRootFile, rglobFiles, List.filterMap_append]
    rw [ih]

theorem hashFiles_setAlign (pm : PathspecModel) (c : Bytes) (t : FSTree) :
    hashFiles pm (setRootFile "Align.md" c t) = hashFiles pm t := by
  unfold hashFiles
  rw [load_gitignore_setRootFile_ne t "Align.md" c (by decide), hashFilesSpec_setAlign]

theorem calculate_repo_hash_setAlign (pm : PathspecModel) (c : Bytes) (t : FSTree) :
    calculate_repo_hash pm (setRootFile "Align.md" c t) = calculate_repo_hash pm t := by
  unfold calculate_repo_hash hashInput sortedHashFiles
  rw [hashFiles_setAlign]

theorem updateA_absent {α : Type} : ∀ (l : List (String × α)) (k : String) (f : α → α),
    lookupA l k = none → updateA l k f = l
  | [], _, _, _ => rfl
  | (k0, v0) :: rest, k, f, h => by
    have hk : k0 ≠ k := by
      intro he
      subst he
      unfold lookupA at h
      rw [List.find?_cons_of_pos _ (by simp)] at h
      simp at h
    unfold updateA
    rw [if_neg hk]
    unfold lookupA at h
    rw [List.find?_cons_of_neg _ (by simp [hk])] at h
    rw [updateA_absent rest k f h]

/-- A refresh of a watched repository whose tree the marker insertion no longer
    changes, and whose handler records the fresh fingerprint as both current and
    persisted, is a pure no-op: success with a state equal to the input. -/
theorem refresh_repo_noop (pm : PathspecModel) (st1 : AppState) (path : String)
    (r1 : Repo) (h1 : Handler)
    (hlr : lookupA st1.repos path = some r1) (hex1 : r1.pathExists = true)
    (hlo : lookupA st1.observers path = some h1)
    (hens : ensure_align_in_gitignore r1.tree = r1.tree)
    (hcur : h1.current_hash = calculate_repo_hash pm r1.tree)
    (hsav : h1.saved_hash = some h1.current_hash) :
    refresh_repo pm st1 path = (true, st1) := by
  have hskip : noop_check (lookupA st1.observers path)
      (calculate_repo_hash pm (ensure_align_in_gitignore r1.tree)) = true := by
    rw [hlo, hens]
    simp [noop_check, hcur, hsav]
  rw [refresh_repo_skips pm st1 path r1 hlr hex1 hskip]
  rw [updateA_id st1.repos path _ r1 hlr (by rw [hens])]

/-- C6: refresh is idempotent — for a watched repository whose first refresh
    takes the write path (document written, fingerprint recorded), an immediately
    repeated refresh with no intervening filesystem change finds the freshly
    computed fingerprint equal to both components of the in-memory record
    (`current_hash`, `saved_hash`), skips every write, reports success, and
    leaves the whole application state exactly as the first call left it; the
    snapshot counter ends at one write in total. -/
theorem c6_refresh_idempotent (pm : PathspecModel) (st : AppState) (path : String)
    (r : Repo) (h : Handler)
    (hr : lookupA st.repos path = some r) (hex : r.pathExists = true)
    (hobs : lookupA st.observers path = some h)
    (hskip1 : noop_check (some h)
      (calculate_repo_hash pm (ensure_align_in_gitignore r.tree)) = false)
    (hsnap : r.snapshotWriteOk = true)
    (hdir : hasRootDirNamed "Align.md" (ensure_align_in_gitignore r.tree) = false) :
    (refresh_repo pm st path).1 = true ∧
    refresh_repo pm (refresh_repo pm st path).2 path = (true, (refresh_repo pm st path).2) ∧
    ((lookupA (refresh_repo pm st path).2.repos path).map Repo.snapshotWrites) =
      some (r.snapshotWrites + 1) := by
  have hskip' : noop_check (lookupA st.observers path)
      (calculate_repo_hash pm (ensure_align_in_gitignore r.tree)) = false := by
    rw [hobs]; exact hskip1
  have hw := refresh_repo_writes pm st path r hr hex hskip' hsnap hdir
  have hsettled : ensure_align_in_gitignore (setRootFile "Align.md"
      (strBytes (generate_markdown path
        (pm (load_gitignore_patterns (ensure_align_in_gitignore r.tree)))
        (ensure_align_in_gitignore r.tree)))
      (ensure_align_in_gitignore r.tree)) =
      setRootFile "Align.md"
        (strBytes (generate_markdown path
          (pm (load_gitignore_patterns (ensure_align_in_gitignore r.tree)))
          (ensure_align_in_gitignore r.tree)))
        (ensure_align_in_gitignore r.tree) :=
    ensure_of_settled _ (gitignore_settled_setRootFile _ "Align.md" _ (by decide)
      (gitignore_settled_ensure r.tree))
  have hhash2 : calculate_repo_hash pm (setRootFile "Align.md"
      (strBytes (generate_markdown path
        (pm (load_gitignore_patterns (ensure_align_in_gitignore r.tree)))
        (ensure_align_in_gitignore r.tree)))
      (ensure_align_in_gitignore r.tree)) =
      calculate_repo_hash pm (ensure_align_in_gitignore r.tree) :=
    calculate_repo_hash_setAlign pm _ _
  refine ⟨by rw [hw], ?_, by rw [hw]; simp [lookupA_updateA_same, hr]⟩
  refine refresh_repo_noop pm (refresh_repo pm st path).2 path
    { r with
      tree := setRootFile "Align.md"
        (strBytes (generate_markdown path
          (pm (load_gitignore_patterns (ensure_align_in_gitignore r.tree)))
          (ensure_align_in_gitignore r.tree)))
        (ensure_align_in_gitignore r.tree),
      sidecar := if r.sidecarWriteOk = true
        then some (calculate_repo_hash pm (ensure_align_in_gitignore r.tree))
        else r.sidecar,
      snapshotWrites := r.snapshotWrites + 1 }
    { current_hash := calculate_repo_hash pm (ensure_align_in_gitignore r.tree),
      saved_hash := some (calculate_repo_hash pm (ensure_align_in_gitignore r.tree)),
      is_refreshing := h.is_refreshing, last_refresh := h.last_refresh }
    ?_ hex ?_ ?_ ?_ ?_
  · rw [hw]
    exact lookupA_updateA_self st.repos path _ r hr
  · rw [hw]
    exact lookupA_updateA_self st.observers path _ h hobs
  · exact hsettled
  · exact hhash2.symm
  · rfl

/-- A concrete watched repository for exercising the idempotence theorem. -/
def c6Repo : Repo :=
  { pathExists := true, tree := [.file "a.txt" [65] true], sidecar := none,
    snapshotWriteOk := true, sidecarWriteOk := true, snapshotWrites := 0 }

/-- Its handler, holding a stale record so the first refresh writes. -/
def c6Handler : Handler :=
  { current_hash := "", saved_hash := none, is_refreshing := false, last_refresh := 0 }

def c6State : AppState := { repos := [("r", c6Repo)], observers := [("r", c6Handler)] }

/-- C6 witness: the concrete scenario, first call reports success (and by the
    theorem the second call returns the first call's state unchanged). -/
theorem c6_refresh_idempotent_witness :
    (refresh_repo (fun _ _ => false) c6State "r").1 = true :=
  (c6_refresh_idempotent (fun _ _ => false) c6State "r" c6Repo c6Handler
    rfl rfl rfl (by decide) rfl (by decide)).1

/-- Without a watch handler for the path, `refresh_repo` leaves the observer map
    untouched on every branch. -/
theorem refresh_repo_observers_absent (pm : PathspecModel) (st : AppState) (p : String)
    (hno : lookupA st.observers p = none) :
    (refresh_repo pm st p).2.observers = st.observers := by
  unfold refresh_repo
  cases hr : lookupA st.repos p with
  | none => rfl
  | some r =>
    dsimp only
    split
    · rfl
    · split
      · rfl
      · split
        · rfl
        · exact updateA_absent st.observers p _ hno

/-- Without a watch handler for the path, one `_refresh_repositories` iteration
    is just the underlying refresh plus the success count. -/
theorem refresh_step_noobs (pm : PathspecModel) (now : Int) (acc : Nat × AppState) (p : String)
    (hno : lookupA acc.2.observers p = none) :
    refresh_step pm now acc p =
      (acc.1 + (if (refresh_repo pm acc.2 p).1 then 1 else 0), (refresh_repo pm acc.2 p).2) := by
  unfold refresh_step
  dsimp only
  rw [updateA_absent _ p _ (by rw [refresh_repo_observers_absent pm acc.2 p hno]; exact hno)]

/-- C7: bulk refresh never aborts on a single repository's failure.  For three
    distinct existing repositories where exactly the second one's snapshot write
    fails, `_refresh_repositories` processes all three sequentially, reports
    "Realigned 2/3", stores the fresh fingerprint in the sidecars of the first
    and third repositories, and leaves the second repository's persisted
    fingerprint untouched. -/
theorem c7_bulk_partial_failure (pm : PathspecModel) (st : AppState) (now : Int)
    (p1 p2 p3 : String) (r1 r2 r3 : Repo)
    (h12 : p1 ≠ p2) (h13 : p1 ≠ p3) (h23 : p2 ≠ p3)
    (hr1 : lookupA st.repos p1 = some r1)
    (hr2 : lookupA st.repos p2 = some r2)
    (hr3 : lookupA st.repos p3 = some r3)
    (hex1 : r1.pathExists = true) (hex2 : r2.pathExists = true) (hex3 : r3.pathExists = true)
    (ho1 : lookupA st.observers p1 = none)
    (ho2 : lookupA st.observers p2 = none)
    (ho3 : lookupA st.observers p3 = none)
    (hs1 : r1.snapshotWriteOk = true) (hs2 : r2.snapshotWriteOk = false)
    (hs3 : r3.snapshotWriteOk = true)
    (hsc1 : r1.sidecarWriteOk = true) (hsc3 : r3.sidecarWriteOk = true)
    (hd1 : hasRootDirNamed "Align.md" (ensure_align_in_gitignore r1.tree) = false)
    (hd3 : hasRootDirNamed "Align.md" (ensure_align_in_gitignore r3.tree) = false) :
    (refresh_many pm st [p1, p2, p3] now).1 = (2, 3) ∧
    ((lookupA (refresh_many pm st [p1, p2, p3] now).2.repos p1).map Repo.sidecar) =
      some (some (calculate_repo_hash pm (ensure_align_in_gitignore r1.tree))) ∧
    ((lookupA (refresh_many pm st [p1, p2, p3] now).2.repos p2).map Repo.sidecar) =
      some r2.sidecar ∧
    ((lookupA (refresh_many pm st [p1, p2, p3] now).2.repos p3).map Repo.sidecar) =
      some (some (calculate_repo_hash pm (ensure_align_in_gitignore r3.tree))) := by
  have hn1 : noop_check (lookupA st.observers p1)
      (calculate_repo_hash pm (ensure_align_in_gitignore r1.tree)) = false := by
    rw [ho1]
    rfl
  have hw1 := refresh_repo_writes pm st p1 r1 hr1 hex1 hn1 hs1 hd1
  have hobs1 : (refresh_repo pm st p1).2.observers = st.observers :=
    refresh_repo_observers_absent pm st p1 ho1
  have hr2s : lookupA (refresh_repo pm st p1).2.repos p2 = some r2 := by
    rw [hw1]
    exact (lookupA_updateA_ne st.repos p1 _ p2 (Ne.symm h12)).trans hr2
  have hn2 : noop_check (lookupA (refresh_repo pm st p1).2.observers p2)
      (calculate_repo_hash pm (ensure_align_in_gitignore r2.tree)) = false := by
    rw [hobs1, ho2]
    rfl
  have hf2 : (!r2.snapshotWriteOk ||
      hasRootDirNamed "Align.md" (ensure_align_in_gitignore r2.tree)) = true := by
    rw [hs2]
    rfl
  have hw2 := refresh_repo_write_fails pm (refresh_repo pm st p1).2 p2 r2 hr2s hex2 hn2 hf2
  have hobs2 : (refresh_repo pm (refresh_repo pm st p1).2 p2).2.observers = st.observers := by
    rw [hw2]
    exact hobs1
  have hr3s : lookupA (refresh_repo pm (refresh_repo pm st p1).2 p2).2.repos p3 = some r3 := by
    rw [hw2]
    refine (lookupA_updateA_ne _ p2 _ p3 (Ne.symm h23)).trans ?_
    rw [hw1]
    exact (lookupA_updateA_ne st.repos p1 _ p3 (Ne.symm h13)).trans hr3
  have hn3 : noop_check (lookupA (refresh_repo pm (refresh_repo pm st p1).2 p2).2.observers p3)
      (calculate_repo_hash pm (ensure_align_in_gitignore r3.tree)) = false := by
    rw [hobs2, ho3]
    rfl
  have hw3 := refresh_repo_writes pm (refresh_repo pm (refresh_repo pm st p1).2 p2).2 p3 r3
    hr3s hex3 hn3 hs3 hd3
  have h1 : refresh_step pm now (0, st) p1 = (1, (refresh_repo pm st p1).2) := by
    rw [refresh_step_noobs pm now (0, st) p1 ho1, hw1]
    rfl
  have h2 : refresh_step pm now (1, (refresh_repo pm st p1).2) p2 =
      (1, (refresh_repo pm (refresh_repo pm st p1).2 p2).2) := by
    rw [refresh_step_noobs pm now (1, (refresh_repo pm st p1).2) p2
      (by show lookupA (refresh_repo pm st p1).2.observers p2 = none
          rw [hobs1]; exact ho2), hw2]
    rfl
  have h3 : refresh_step pm now (1, (refresh_repo pm (refresh_repo pm st p1).2 p2).2) p3 =
      (2, (refresh_repo pm (refresh_repo pm (refresh_repo pm st p1).2 p2).2 p3).2) := by
    rw [refresh_step_noobs pm now (1, (refresh_repo pm (refresh_repo pm st p1).2 p2).2) p3
      (by show lookupA (refresh_repo pm (refresh_repo pm st p1).2 p2).2.observers p3 = none
          rw [hobs2]; exact ho3), hw3]
    rfl
  have hfold : refresh_many pm st [p1, p2, p3] now =
      ((2, 3), (refresh_repo pm (refresh_repo pm (refresh_repo pm st p1).2 p2).2 p3).2) := by
    unfold refresh_many
    dsimp only [List.foldl, List.length]
    rw [updateA_absent _ _ _ ho1, updateA_absent _ _ _ ho2, updateA_absent _ _ _ ho3]
    rw [show ({ repos := st.repos, observers := st.observers } : AppState) = st from rfl]
    rw [h1, h2, h3]
  refine ⟨by rw [hfold], ?_, ?_, ?_⟩
  · rw [hfold]
    have hstep3 : lookupA (refresh_repo pm (refresh_repo pm (refresh_repo pm st p1).2 p2).2
        p3).2.repos p1 = lookupA (refresh_repo pm (refresh_repo pm st p1).2 p2).2.repos p1 := by
      rw [hw3]
      exact lookupA_updateA_ne _ p3 _ p1 h13
    rw [hstep3, hw2]
    have hstep2 : lookupA (updateA (refresh_repo pm st p1).2.repos p2
        fun r0 => { r0 with tree := ensure_align_in_gitignore r2.tree }) p1 =
        lookupA (refresh_repo pm st p1).2.repos p1 :=
      lookupA_updateA_ne _ p2 _ p1 h12
    rw [hstep2, hw1]
    simp [lookupA_updateA_same, hr1, hsc1]
  · rw [hfold]
    have hstep3 : lookupA (refresh_repo pm (refresh_repo pm (refresh_repo pm st p1).2 p2).2
        p3).2.repos p2 = lookupA (refresh_repo pm (refresh_repo pm st p1).2 p2).2.repos p2 := by
      rw [hw3]
      exact lookupA_updateA_ne _ p3 _ p2 h23
    rw [hstep3, hw2]
    simp [lookupA_updateA_same, hr2s]
  · rw [hfold, hw3]
    simp [lookupA_updateA_same, hr3s, hsc3]

/-- First concrete repository of the bulk scenario: fully writable. -/
def c7Repo1 : Repo :=
  { pathExists := true, tree := [.file "a.txt" [65] true], sidecar := none,
    snapshotWriteOk := true, sidecarWriteOk := true, snapshotWrites := 0 }

/-- Second concrete repository: its snapshot write fails. -/
def c7Repo2 : Repo :=
  { pathExists := true, tree := [.file "b.txt" [66] true], sidecar := some "keep",
    snapshotWriteOk := false, sidecarWriteOk := true, snapshotWrites := 0 }

/-- Third concrete repository: fully writable. -/
def c7Repo3 : Repo :=
  { pathExists := true, tree := [.file "c.txt" [67] true], sidecar := none,
    snapshotWriteOk := true, sidecarWriteOk := true, snapshotWrites := 0 }

def c7State : AppState :=
  { repos := [("p", c7Repo1), ("q", c7Repo2), ("s", c7Repo3)], observers := [] }

/-- C7 witness: the concrete three-repository bulk refresh reports 2 of 3. -/
theorem c7_bulk_partial_failure_witness :
    (refresh_many (fun _ _ => false) c7State ["p", "q", "s"] 0).1 = (2, 3) :=
  (c7_bulk_partial_failure (fun _ _ => false) c7State 0 "p" "q" "s" c7Repo1 c7Repo2 c7Repo3
    (by decide) (by decide) (by decide) rfl rfl rfl rfl rfl rfl rfl rfl rfl rfl rfl rfl
    rfl rfl (by decide) (by decide)).1
